import Mathlib

/-!
# Intel hardware random generator: embedding of `IntelRandomGenerator`

Shallow embedding of `random_generator.cpp` (the two source files differ only in
the language of their comments and console texts).

* The hardware step intrinsics (`_rdrand32_step`, `_rdrand64_step`,
  `_rdseed32_step`, `_rdseed64_step`) are compiler builtins; they are taken as a
  parameter, a response stream `Hardware`.
* The side effects of the class are made explicit in `Machine`: the trace of the
  hardware step instructions executed so far, and what was written to `std::cerr`.
* `bool f(uintN_t& value)` becomes a function returning `Option Nat`: `some w`
  for `return true` with `value = w`, `none` for `return false`.
-/

namespace IntelRandomGenerator

/-! ## Data model -/

/-- Instruction family of a hardware step intrinsic. -/
inductive Family where
  | rdrand
  | rdseed
  deriving DecidableEq, Repr

/-- Operand width of a hardware step intrinsic. -/
inductive Width where
  | w32
  | w64
  deriving DecidableEq, Repr

/-- Number of bits of an operand width (`uint32_t` / `uint64_t`). -/
def Width.bits : Width → Nat
  | .w32 => 32
  | .w64 => 64

/-- One hardware step instruction: `_rdrand32_step`, `_rdrand64_step`,
`_rdseed32_step` or `_rdseed64_step`. -/
structure Instr where
  family : Family
  width : Width
  deriving DecidableEq, Repr

/-- The hardware response stream. `hw i ins` is what the `i`-th hardware step
instruction executed since power-on (0-based) answers when that instruction is
`ins`: `none` when the step reports failure (returns 0), `some w` when it reports
success (returns 1) and delivers the word `w`. -/
abbrev Hardware := Nat → Instr → Option Nat

/-- The two messages the class writes to `std::cerr`. -/
inductive Diagnostic where
  /-- Line 103: "错误: CPU不支持硬件随机数生成器" /
  "Error: CPU does not support hardware random number generator". -/
  | no_hardware_support
  /-- Line 108: "错误: 随机数生成失败" / "Error: Random number generation failed". -/
  | generation_failed
  deriving DecidableEq, Repr

/-- Observable effects of the class: `calls` is the trace of hardware step
instructions executed so far (oldest first), `cerr` the lines written to
`std::cerr` so far (oldest first). -/
structure Machine where
  calls : List Instr
  cerr : List Diagnostic
  deriving DecidableEq, Repr

/-- The private fields of `class IntelRandomGenerator` (lines 11-12). -/
structure Generator where
  rdrand_supported : Bool
  rdseed_supported : Bool
  deriving DecidableEq, Repr

/-! ## Hardware step intrinsics -/

/-- Executing one hardware step instruction: the next response of the stream is
consumed, a delivered word is stored into an operand of the instruction's width,
and the instruction is appended to the trace. -/
def hw_step (hw : Hardware) (ins : Instr) (m : Machine) : Option Nat × Machine :=
  ((hw m.calls.length ins).map (fun w => w % 2 ^ ins.width.bits),
   { m with calls := m.calls ++ [ins] })

/-- The intrinsic `_rdrand32_step(&value)`. -/
def _rdrand32_step (hw : Hardware) (m : Machine) : Option Nat × Machine :=
  hw_step hw ⟨.rdrand, .w32⟩ m

/-- The intrinsic `_rdrand64_step(&value)`. -/
def _rdrand64_step (hw : Hardware) (m : Machine) : Option Nat × Machine :=
  hw_step hw ⟨.rdrand, .w64⟩ m

/-- The intrinsic `_rdseed32_step(&value)`. -/
def _rdseed32_step (hw : Hardware) (m : Machine) : Option Nat × Machine :=
  hw_step hw ⟨.rdseed, .w32⟩ m

/-- The intrinsic `_rdseed64_step(&value)`. -/
def _rdseed64_step (hw : Hardware) (m : Machine) : Option Nat × Machine :=
  hw_step hw ⟨.rdseed, .w64⟩ m

/-! ## The four draw operations (lines 38-87) -/

/-- `while (retry-- > 0) { if (step(&value)) return true; } return false;`
with `step` one of the four intrinsics and the first argument the current
value of `retry`. -/
def retry_loop (step : Machine → Option Nat × Machine) : Nat → Machine → Option Nat × Machine
  | 0, m => (none, m)
  | retry + 1, m =>
    match step m with
    | (some value, m1) => (some value, m1)
    | (none, m1) => retry_loop step retry m1

/-- `bool generate_rdrand32(uint32_t& value)` (lines 38-48). -/
def generate_rdrand32 (g : Generator) (hw : Hardware) (m : Machine) : Option Nat × Machine :=
  if !g.rdrand_supported then (none, m)
  else retry_loop (_rdrand32_step hw) 10 m

/-- `bool generate_rdrand64(uint64_t& value)` (lines 51-61). -/
def generate_rdrand64 (g : Generator) (hw : Hardware) (m : Machine) : Option Nat × Machine :=
  if !g.rdrand_supported then (none, m)
  else retry_loop (_rdrand64_step hw) 10 m

/-- `bool generate_rdseed32(uint32_t& value)` (lines 64-74). -/
def generate_rdseed32 (g : Generator) (hw : Hardware) (m : Machine) : Option Nat × Machine :=
  if !g.rdseed_supported then (none, m)
  else retry_loop (_rdseed32_step hw) 10 m

/-- `bool generate_rdseed64(uint64_t& value)` (lines 77-87). -/
def generate_rdseed64 (g : Generator) (hw : Hardware) (m : Machine) : Option Nat × Machine :=
  if !g.rdseed_supported then (none, m)
  else retry_loop (_rdseed64_step hw) 10 m

/-! ## `generate_random_bytes` (lines 90-119) -/

/-- Writing one line to `std::cerr`. -/
def Machine.report (m : Machine) (d : Diagnostic) : Machine :=
  { m with cerr := m.cerr ++ [d] }

/-- The inner loop of lines 113-115,
`for (int i = 0; i < 8 && result.size() < length; i++)
   result.push_back((random_value >> (i * 8)) & 0xFF);`
The first argument is `8 - i`, the number of values of `i` still below 8. -/
def push_bytes (random_value length : Nat) : Nat → Nat → List Nat → List Nat
  | 0, _, result => result
  | todo + 1, i, result =>
    if result.length < length then
      push_bytes random_value length todo (i + 1)
        (result ++ [(random_value >>> (i * 8)) &&& 0xFF])
    else result

/-- The outer loop `while (result.size() < length) { ... }` of lines 94-116 and the
`return result` of line 118. The first argument bounds the number of loop tests
still allowed; `none` means that the bound was reached before the function
returned. -/
def generate_random_bytes_loop (g : Generator) (hw : Hardware) (length : Nat)
    (use_rdseed : Bool) : Nat → List Nat → Machine → Option (List Nat × Machine)
  | 0, _, _ => none
  | fuel + 1, result, m =>
    if result.length < length then
      let drawn : Option (Option Nat × Machine) :=
        if use_rdseed && g.rdseed_supported then some (generate_rdseed64 g hw m)
        else if g.rdrand_supported then some (generate_rdrand64 g hw m)
        else none
      match drawn with
      | none => some (result, m.report .no_hardware_support)
      | some (none, m1) => some (result, m1.report .generation_failed)
      | some (some random_value, m1) =>
        generate_random_bytes_loop g hw length use_rdseed fuel
          (push_bytes random_value length 8 0 result) m1
    else some (result, m)

/-- `std::vector<uint8_t> generate_random_bytes(size_t length, bool use_rdseed)`
(lines 90-119): the returned vector and the machine after the call. The loop is
given `length + 1` loop tests, more than it can ever use (`run_cases` shows that
the result is never `none`). `result.reserve(length)` changes neither the contents
of the vector nor any other observable state; memory allocation is taken to
succeed. -/
def generate_random_bytes (g : Generator) (hw : Hardware) (length : Nat)
    (use_rdseed : Bool) (m : Machine) : Option (List Nat × Machine) :=
  generate_random_bytes_loop g hw length use_rdseed (length + 1) [] m

/-! ## Vocabulary of the specification -/

/-- The spec's `draw(family, width)`: the draw operation of an instruction. -/
def draw (g : Generator) (hw : Hardware) : Instr → Machine → Option Nat × Machine
  | ⟨.rdrand, .w32⟩ => generate_rdrand32 g hw
  | ⟨.rdrand, .w64⟩ => generate_rdrand64 g hw
  | ⟨.rdseed, .w32⟩ => generate_rdseed32 g hw
  | ⟨.rdseed, .w64⟩ => generate_rdseed64 g hw

/-- The support flag of an instruction family. -/
def supported (g : Generator) : Family → Bool
  | .rdrand => g.rdrand_supported
  | .rdseed => g.rdseed_supported

/-- At least one usable instruction: RDRAND supported, or `use_rdseed` with RDSEED
supported. -/
def usable (g : Generator) (use_rdseed : Bool) : Bool :=
  g.rdrand_supported || (use_rdseed && g.rdseed_supported)

/-- The instruction a loop iteration selects (lines 98-101) when one is usable. -/
def selected (g : Generator) (use_rdseed : Bool) : Instr :=
  if use_rdseed && g.rdseed_supported then ⟨.rdseed, .w64⟩ else ⟨.rdrand, .w64⟩

/-- The 64-bit draw a loop iteration performs at machine state `m` (lines 98-101). -/
def draw64 (g : Generator) (hw : Hardware) (use_rdseed : Bool) (m : Machine) :
    Option Nat × Machine :=
  if use_rdseed && g.rdseed_supported then generate_rdseed64 g hw m
  else generate_rdrand64 g hw m

/-- The machine after `j` consecutive 64-bit draws started at `m`. -/
def after_draws (g : Generator) (hw : Hardware) (use_rdseed : Bool) : Nat → Machine → Machine
  | 0, m => m
  | j + 1, m => after_draws g hw use_rdseed j (draw64 g hw use_rdseed m).2

/-- The result of the `j`-th (0-based) of the consecutive 64-bit draws started at `m`. -/
def nth_draw (g : Generator) (hw : Hardware) (use_rdseed : Bool) (j : Nat) (m : Machine) :
    Option Nat :=
  (draw64 g hw use_rdseed (after_draws g hw use_rdseed j m)).1

/-- Number of 64-bit words needed for `n` bytes, `ceil (n / 8)`. -/
def words_needed (n : Nat) : Nat := (n + 7) / 8

/-- Byte `i` of a word, least significant first: `(w >> (i * 8)) & 0xFF`. -/
def byte_of (w i : Nat) : Nat := (w >>> (i * 8)) &&& 0xFF

/-- The eight bytes of a 64-bit word in little-endian order. -/
def le_bytes (w : Nat) : List Nat := (List.range' 0 8).map (byte_of w)

/-- The little-endian bytes of the words of the first `j` consecutive 64-bit draws
started at `m` (a failed draw, which delivers no word, counts as the word 0). -/
def drawn_bytes (g : Generator) (hw : Hardware) (use_rdseed : Bool) : Nat → Machine → List Nat
  | 0, _ => []
  | j + 1, m =>
    le_bytes ((draw64 g hw use_rdseed m).1.getD 0) ++
      drawn_bytes g hw use_rdseed j (draw64 g hw use_rdseed m).2

/-! ## `generate_hex_string` (lines 122-133)

`std::string` is modelled as the list of its characters. -/

/-- The body of the loop of lines 127-128 for one byte,
`ss << std::hex << std::setw(2) << std::setfill('0') << static_cast<int>(byte)`
on a fresh `std::stringstream`, followed by `ss.str()`: the digits of the value in
base 16 (lowercase, as `std::uppercase` is not set), padded on the left with the
fill character `'0'` up to the width 2. -/
def format_byte (byte : Nat) : List Char :=
  let digits := Nat.toDigits 16 byte
  List.replicate (2 - digits.length) '0' ++ digits

/-- The formatting loop of lines 124-130:
`for (uint8_t byte : bytes) { ...; hex_string += ss.str(); }` starting from the
empty `hex_string`. -/
def hex_loop (bytes : List Nat) : List Char :=
  bytes.foldl (fun hex_string byte => hex_string ++ format_byte byte) []

/-- `std::string generate_hex_string(size_t length, bool use_rdseed)`
(lines 122-133). -/
def generate_hex_string (g : Generator) (hw : Hardware) (length : Nat)
    (use_rdseed : Bool) (m : Machine) : Option (List Char × Machine) :=
  match generate_random_bytes g hw length use_rdseed m with
  | none => none
  | some (bytes, m1) => some (hex_loop bytes, m1)

/-! ## The menu loop of `main` (lines 144-206) -/

/-- What one pass through the body of `while (true)` in `main` does with the
generator, once `choice` and (where it is read) `length` have been read. -/
inductive Pass where
  /-- Line 155: `break`. -/
  | quit
  /-- Lines 157-160: invalid choice, `continue`. -/
  | invalid_choice
  /-- Lines 165-168: the length is rejected, `continue`. -/
  | length_rejected
  /-- Cases 1 and 2: `generator.generate_random_bytes(length, use_rdseed)`. -/
  | random_bytes (length : Nat) (use_rdseed : Bool)
  /-- Cases 3 and 4: `generator.generate_hex_string(length, use_rdseed)`. -/
  | hex_string (length : Nat) (use_rdseed : Bool)
  /-- No `case` of the `switch` matches. -/
  | no_case
  deriving DecidableEq, Repr

/-- One pass through the body of the menu loop (lines 153-205) for the values read
into `int choice` and `size_t length`. -/
def main_pass (choice : Int) (length : Nat) : Pass :=
  if choice = 5 then .quit
  else if choice < 1 ∨ choice > 4 then .invalid_choice
  else if length ≤ 0 ∨ length > 10000 then .length_rejected
  else if choice = 1 then .random_bytes length false
  else if choice = 2 then .random_bytes length true
  else if choice = 3 then .hex_string length false
  else if choice = 4 then .hex_string length true
  else .no_case

/-! ## Vocabulary of the specification: hexadecimal text -/

/-- The sixteen lowercase hexadecimal digits, by value. -/
def hex_digits : List Char := "0123456789abcdef".toList

/-- The value of a hexadecimal digit character. -/
def hex_value (c : Char) : Option Nat :=
  if '0' ≤ c ∧ c ≤ '9' then some (c.toNat - '0'.toNat)
  else if 'a' ≤ c ∧ c ≤ 'f' then some (c.toNat - 'a'.toNat + 10)
  else if 'A' ≤ c ∧ c ≤ 'F' then some (c.toNat - 'A'.toNat + 10)
  else none

/-- Decoding hexadecimal text to bytes, two characters per byte, each pair read as
a base-16 number. -/
def hex_decode : List Char → Option (List Nat)
  | [] => some []
  | [_] => none
  | hi :: lo :: rest =>
    match hex_value hi, hex_value lo, hex_decode rest with
    | some h, some l, some bytes => some ((16 * h + l) :: bytes)
    | _, _, _ => none

/-- Number of successful responses among the `t` hardware responses with indices
`p`, ..., `p + t - 1`, for the instruction `ins`. -/
def successes (hw : Hardware) (ins : Instr) (p t : Nat) : Nat :=
  ((List.range' p t).filter (fun i => (hw i ins).isSome)).length

/-- A hardware stream used in the examples: every third step succeeds. -/
def hw_third : Hardware := fun i _ => if i % 3 = 2 then some (0x0102030405060708 + i) else none

/-- A hardware stream used in the examples: only the first five steps succeed. -/
def hw_five : Hardware := fun i _ => if i < 5 then some (2 ^ 64 + 0x1122334455667788 + i) else none

/-- A hardware stream that never succeeds. -/
def hw_dead : Hardware := fun _ _ => none

/-- The machine before any hardware step and any console output. -/
def Machine.init : Machine := ⟨[], []⟩

end IntelRandomGenerator


/-! ## The retry loop and the four draw operations -/

namespace IntelRandomGenerator

theorem retry_loop_all_fail (hw : Hardware) (ins : Instr) :
    ∀ (r : Nat) (m : Machine), (∀ i, i < r → hw (m.calls.length + i) ins = none) →
      retry_loop (hw_step hw ins) r m =
        (none, { calls := m.calls ++ List.replicate r ins, cerr := m.cerr }) := by
  intro r
  induction r with
  | zero => intro m _; simp [retry_loop]
  | succ r ih =>
    intro m h
    have h0 : hw m.calls.length ins = none := by simpa using h 0 (Nat.succ_pos r)
    have hstep : hw_step hw ins m = (none, { m with calls := m.calls ++ [ins] }) := by
      simp [hw_step, h0]
    rw [retry_loop, hstep]
    simp only
    rw [ih]
    · simp [List.replicate_succ]
    · intro i hi
      have := h (i + 1) (Nat.succ_lt_succ hi)
      simpa [Nat.add_assoc, Nat.add_comm 1 i] using this

theorem retry_loop_first_success (hw : Hardware) (ins : Instr) :
    ∀ (k r : Nat) (m : Machine) (v : Nat), k < r →
      (∀ i, i < k → hw (m.calls.length + i) ins = none) →
      hw (m.calls.length + k) ins = some v →
      retry_loop (hw_step hw ins) r m =
        (some (v % 2 ^ ins.width.bits),
          { calls := m.calls ++ List.replicate (k + 1) ins, cerr := m.cerr }) := by
  intro k
  induction k with
  | zero =>
    intro r m v hr _ hv
    obtain ⟨r, rfl⟩ : ∃ r', r = r' + 1 := ⟨r - 1, by omega⟩
    have hstep : hw_step hw ins m =
        (some (v % 2 ^ ins.width.bits), { m with calls := m.calls ++ [ins] }) := by
      simp [hw_step, show hw m.calls.length ins = some v by simpa using hv]
    rw [retry_loop, hstep]
    simp
  | succ k ih =>
    intro r m v hr hfail hv
    obtain ⟨r, rfl⟩ : ∃ r', r = r' + 1 := ⟨r - 1, by omega⟩
    have h0 : hw m.calls.length ins = none := by simpa using hfail 0 (Nat.succ_pos k)
    have hstep : hw_step hw ins m = (none, { m with calls := m.calls ++ [ins] }) := by
      simp [hw_step, h0]
    rw [retry_loop, hstep]
    simp only
    rw [ih r _ v (by omega)]
    · simp [List.replicate_succ]
    · intro i hi
      have := hfail (i + 1) (Nat.succ_lt_succ hi)
      simpa [Nat.add_assoc, Nat.add_comm 1 i] using this
    · simpa [Nat.add_assoc, Nat.add_comm 1 k] using hv

/-- Either the first `d` indices all satisfy `P`, or there is a first one that
does not. -/
theorem all_or_first_not (P : Nat → Prop) (d : Nat) :
    (∀ j, j < d → P j) ∨ ∃ J, J < d ∧ (∀ j, j < J → P j) ∧ ¬ P J := by
  induction d with
  | zero => left; intro j hj; omega
  | succ d ih =>
    rcases ih with h | ⟨J, hJ, h1, h2⟩
    · by_cases hd : P d
      · left
        intro j hj
        rcases Nat.lt_succ_iff_lt_or_eq.mp hj with h' | h'
        · exact h j h'
        · exact h' ▸ hd
      · right; exact ⟨d, Nat.lt_succ_self d, h, hd⟩
    · right; exact ⟨J, Nat.lt_succ_of_lt hJ, h1, h2⟩

/-- With its instruction supported, a draw operation is the retry loop with a
budget of 10 around the instruction's hardware step. -/
theorem draw_supported (g : Generator) (hw : Hardware) (ins : Instr) (m : Machine)
    (h : supported g ins.family = true) :
    draw g hw ins m = retry_loop (hw_step hw ins) 10 m := by
  rcases ins with ⟨f, w⟩
  cases f <;> cases w <;> simp only [supported] at h <;>
    simp [draw, generate_rdrand32, generate_rdrand64, generate_rdseed32, generate_rdseed64,
      _rdrand32_step, _rdrand64_step, _rdseed32_step, _rdseed64_step, h] <;> rfl

/-- With its instruction unsupported, a draw operation returns `false` at once. -/
theorem draw_unsupported (g : Generator) (hw : Hardware) (ins : Instr) (m : Machine)
    (h : supported g ins.family = false) :
    draw g hw ins m = (none, m) := by
  rcases ins with ⟨f, w⟩
  cases f <;> cases w <;> simp only [supported] at h <;>
    simp [draw, generate_rdrand32, generate_rdrand64, generate_rdseed32, generate_rdseed64, h]

/-- The two possible outcomes of a supported draw, in terms of the hardware
stream. -/
theorem draw_outcome (g : Generator) (hw : Hardware) (ins : Instr) (m : Machine)
    (h : supported g ins.family = true) :
    ((∀ i, i < 10 → hw (m.calls.length + i) ins = none) ∧
      draw g hw ins m =
        (none, { calls := m.calls ++ List.replicate 10 ins, cerr := m.cerr })) ∨
    (∃ k v, k < 10 ∧ (∀ i, i < k → hw (m.calls.length + i) ins = none) ∧
      hw (m.calls.length + k) ins = some v ∧
      draw g hw ins m =
        (some (v % 2 ^ ins.width.bits),
          { calls := m.calls ++ List.replicate (k + 1) ins, cerr := m.cerr })) := by
  rw [draw_supported g hw ins m h]
  rcases all_or_first_not (fun i => hw (m.calls.length + i) ins = none) 10 with hall | ⟨k, hk, h1, h2⟩
  · exact Or.inl ⟨hall, retry_loop_all_fail hw ins 10 m hall⟩
  · right
    obtain ⟨v, hv⟩ := Option.ne_none_iff_exists'.mp h2
    exact ⟨k, v, hk, h1, hv, retry_loop_first_success hw ins k 10 m v hk h1 hv⟩

end IntelRandomGenerator

/-! ## The byte loop and the outer loop -/

namespace IntelRandomGenerator

theorem push_bytes_eq (w n : Nat) :
    ∀ (todo i : Nat) (result : List Nat),
      push_bytes w n todo i result =
        result ++ ((List.range' i todo).map (byte_of w)).take (n - result.length) := by
  intro todo
  induction todo with
  | zero => intro i result; simp [push_bytes]
  | succ todo ih =>
    intro i result
    rw [push_bytes]
    split
    · next hlt =>
      rw [ih]
      obtain ⟨r, hr⟩ : ∃ r, n - result.length = r + 1 := ⟨n - result.length - 1, by omega⟩
      have hr2 : n - (result ++ [w >>> (i * 8) &&& 0xFF]).length = r := by
        simp only [List.length_append, List.length_singleton]; omega
      rw [hr, hr2]
      simp [List.range'_succ, byte_of]
    · next hge =>
      have : n - result.length = 0 := by omega
      simp [this]

theorem push_bytes_word (w n : Nat) (result : List Nat) :
    push_bytes w n 8 0 result = result ++ (le_bytes w).take (n - result.length) := by
  rw [push_bytes_eq]; rfl

theorem le_bytes_length (w : Nat) : (le_bytes w).length = 8 := by
  simp [le_bytes]

theorem draw64_eq_draw (g : Generator) (hw : Hardware) (use_rdseed : Bool) (m : Machine) :
    draw64 g hw use_rdseed m = draw g hw (selected g use_rdseed) m := by
  unfold draw64 selected
  split <;> rfl

theorem selected_supported (g : Generator) (use_rdseed : Bool)
    (h : usable g use_rdseed = true) : supported g (selected g use_rdseed).family = true := by
  rcases g with ⟨a, b⟩
  cases a <;> cases b <;> cases use_rdseed <;> simp_all [usable, selected, supported]

/-- One loop test that fails: the function returns. -/
theorem loop_done (g : Generator) (hw : Hardware) (n : Nat) (use_rdseed : Bool)
    (fuel : Nat) (result : List Nat) (m : Machine) (h : ¬ result.length < n) :
    generate_random_bytes_loop g hw n use_rdseed (fuel + 1) result m = some (result, m) := by
  rw [generate_random_bytes_loop, if_neg h]

/-- One iteration without a usable instruction. -/
theorem loop_unusable (g : Generator) (hw : Hardware) (n : Nat) (use_rdseed : Bool)
    (fuel : Nat) (result : List Nat) (m : Machine) (h : result.length < n)
    (hu : usable g use_rdseed = false) :
    generate_random_bytes_loop g hw n use_rdseed (fuel + 1) result m =
      some (result, m.report .no_hardware_support) := by
  rw [generate_random_bytes_loop, if_pos h]
  rcases g with ⟨a, b⟩
  cases a <;> cases b <;> cases use_rdseed <;> simp_all [usable]

/-- One iteration whose draw fails. -/
theorem loop_draw_fails (g : Generator) (hw : Hardware) (n : Nat) (use_rdseed : Bool)
    (fuel : Nat) (result : List Nat) (m m1 : Machine) (h : result.length < n)
    (hu : usable g use_rdseed = true) (hd : draw64 g hw use_rdseed m = (none, m1)) :
    generate_random_bytes_loop g hw n use_rdseed (fuel + 1) result m =
      some (result, m1.report .generation_failed) := by
  rw [generate_random_bytes_loop, if_pos h]
  rcases g with ⟨a, b⟩
  cases a <;> cases b <;> cases use_rdseed <;> simp_all [usable, draw64]

/-- One iteration whose draw succeeds. -/
theorem loop_draw_succeeds (g : Generator) (hw : Hardware) (n : Nat) (use_rdseed : Bool)
    (fuel : Nat) (result : List Nat) (m m1 : Machine) (w : Nat) (h : result.length < n)
    (hu : usable g use_rdseed = true) (hd : draw64 g hw use_rdseed m = (some w, m1)) :
    generate_random_bytes_loop g hw n use_rdseed (fuel + 1) result m =
      generate_random_bytes_loop g hw n use_rdseed fuel
        (result ++ (le_bytes w).take (n - result.length)) m1 := by
  rw [generate_random_bytes_loop, if_pos h, ← push_bytes_word]
  rcases g with ⟨a, b⟩
  cases a <;> cases b <;> cases use_rdseed <;> simp_all [usable, draw64]

theorem nth_draw_zero (g : Generator) (hw : Hardware) (use_rdseed : Bool) (m : Machine) :
    nth_draw g hw use_rdseed 0 m = (draw64 g hw use_rdseed m).1 := rfl

theorem nth_draw_succ (g : Generator) (hw : Hardware) (use_rdseed : Bool) (j : Nat)
    (m : Machine) :
    nth_draw g hw use_rdseed (j + 1) m =
      nth_draw g hw use_rdseed j (draw64 g hw use_rdseed m).2 := rfl

theorem words_needed_zero_iff (r : Nat) : words_needed r = 0 ↔ r = 0 := by
  unfold words_needed; omega

theorem words_needed_step (r : Nat) (h : 0 < r) :
    words_needed r = words_needed (r - min r 8) + 1 := by
  unfold words_needed; omega

/-- The run of the loop when the draws it needs all succeed. -/
theorem loop_all_succeed (g : Generator) (hw : Hardware) (n : Nat) (use_rdseed : Bool)
    (hu : usable g use_rdseed = true) :
    ∀ (d fuel : Nat) (result : List Nat) (m : Machine),
      words_needed (n - result.length) = d → d < fuel →
      (∀ j, j < d → nth_draw g hw use_rdseed j m ≠ none) →
      generate_random_bytes_loop g hw n use_rdseed fuel result m =
        some (result ++ (drawn_bytes g hw use_rdseed d m).take (n - result.length),
          after_draws g hw use_rdseed d m) := by
  intro d
  induction d with
  | zero =>
    intro fuel result m hd hf _
    obtain ⟨fuel, rfl⟩ : ∃ f, fuel = f + 1 := ⟨fuel - 1, by omega⟩
    have h0 := (words_needed_zero_iff _).mp hd
    rw [loop_done g hw n use_rdseed fuel result m (by omega)]
    simp [drawn_bytes, after_draws]
  | succ d ih =>
    intro fuel result m hd hf hok
    obtain ⟨fuel, rfl⟩ : ∃ f, fuel = f + 1 := ⟨fuel - 1, by omega⟩
    have hpos : 0 < n - result.length := by
      rcases Nat.eq_zero_or_pos (n - result.length) with h | h
      · rw [h] at hd; simp [words_needed] at hd
      · exact h
    have h0 := hok 0 (Nat.succ_pos d)
    rw [nth_draw_zero] at h0
    obtain ⟨w, hw1⟩ := Option.ne_none_iff_exists'.mp h0
    have hdraw : draw64 g hw use_rdseed m = (some w, (draw64 g hw use_rdseed m).2) := by
      rw [← hw1]
    rw [loop_draw_succeeds g hw n use_rdseed fuel result m _ w (by omega) hu hdraw]
    have hlen : (result ++ (le_bytes w).take (n - result.length)).length =
        result.length + min (n - result.length) 8 := by
      simp [le_bytes_length]
    have hsub : n - (result.length + min (n - result.length) 8) =
        n - result.length - min (n - result.length) 8 := by omega
    rw [ih fuel _ _ (by rw [hlen, hsub]; have := words_needed_step _ hpos; omega) (by omega)
      (fun j hj => by rw [← nth_draw_succ]; exact hok (j + 1) (Nat.succ_lt_succ hj))]
    rw [hlen]
    simp only [drawn_bytes, after_draws, hw1, Option.getD_some, List.append_assoc]
    rw [List.take_append_eq_append_take, le_bytes_length]
    congr 3
    by_cases h8 : n - result.length ≤ 8
    · have e1 : n - (result.length + min (n - result.length) 8) = 0 := by omega
      have e2 : n - result.length - 8 = 0 := by omega
      rw [e1, e2]
    · have : n - (result.length + min (n - result.length) 8) = n - result.length - 8 := by omega
      rw [this]

theorem drawn_bytes_length (g : Generator) (hw : Hardware) (use_rdseed : Bool) :
    ∀ (j : Nat) (m : Machine), (drawn_bytes g hw use_rdseed j m).length = 8 * j := by
  intro j
  induction j with
  | zero => intro m; rfl
  | succ j ih => intro m; simp [drawn_bytes, le_bytes_length, ih]; omega

/-- The run of the loop when draw `J` is the first one to fail. -/
theorem loop_first_failure (g : Generator) (hw : Hardware) (n : Nat) (use_rdseed : Bool)
    (hu : usable g use_rdseed = true) :
    ∀ (J fuel : Nat) (result : List Nat) (m : Machine),
      8 * J < n - result.length → J < fuel →
      (∀ j, j < J → nth_draw g hw use_rdseed j m ≠ none) →
      nth_draw g hw use_rdseed J m = none →
      generate_random_bytes_loop g hw n use_rdseed fuel result m =
        some (result ++ drawn_bytes g hw use_rdseed J m,
          (after_draws g hw use_rdseed (J + 1) m).report .generation_failed) := by
  intro J
  induction J with
  | zero =>
    intro fuel result m hJ hf _ hfail
    obtain ⟨fuel, rfl⟩ : ∃ f, fuel = f + 1 := ⟨fuel - 1, by omega⟩
    rw [nth_draw_zero] at hfail
    have hdraw : draw64 g hw use_rdseed m = (none, (draw64 g hw use_rdseed m).2) := by
      rw [← hfail]
    rw [loop_draw_fails g hw n use_rdseed fuel result m _ (by omega) hu hdraw]
    simp [drawn_bytes, after_draws]
  | succ J ih =>
    intro fuel result m hJ hf hok hfail
    obtain ⟨fuel, rfl⟩ : ∃ f, fuel = f + 1 := ⟨fuel - 1, by omega⟩
    have h0 := hok 0 (Nat.succ_pos J)
    rw [nth_draw_zero] at h0
    obtain ⟨w, hw1⟩ := Option.ne_none_iff_exists'.mp h0
    have hdraw : draw64 g hw use_rdseed m = (some w, (draw64 g hw use_rdseed m).2) := by
      rw [← hw1]
    rw [loop_draw_succeeds g hw n use_rdseed fuel result m _ w (by omega) hu hdraw]
    have htake : (le_bytes w).take (n - result.length) = le_bytes w := by
      apply List.take_of_length_le
      rw [le_bytes_length]; omega
    rw [htake]
    rw [ih fuel _ _ (by simp [le_bytes_length]; omega) (by omega)
      (fun j hj => by rw [← nth_draw_succ]; exact hok (j + 1) (Nat.succ_lt_succ hj))
      (by rw [← nth_draw_succ]; exact hfail)]
    simp [drawn_bytes, after_draws, hw1]

end IntelRandomGenerator

/-! ## The consecutive draws of a call -/

namespace IntelRandomGenerator

theorem after_draws_succ_last (g : Generator) (hw : Hardware) (use_rdseed : Bool) :
    ∀ (j : Nat) (m : Machine),
      after_draws g hw use_rdseed (j + 1) m =
        (draw64 g hw use_rdseed (after_draws g hw use_rdseed j m)).2 := by
  intro j
  induction j with
  | zero => intro m; rfl
  | succ j ih => intro m; rw [after_draws, ih]; rfl

/-- A usable draw either fails after exactly 10 failed steps or succeeds after at
most 10 steps; it writes nothing to `std::cerr`. -/
theorem draw64_outcome (g : Generator) (hw : Hardware) (use_rdseed : Bool) (m : Machine)
    (hu : usable g use_rdseed = true) :
    ((draw64 g hw use_rdseed m).1 = none ∧
      (∀ i, i < 10 → hw (m.calls.length + i) (selected g use_rdseed) = none) ∧
      (draw64 g hw use_rdseed m).2 =
        { calls := m.calls ++ List.replicate 10 (selected g use_rdseed), cerr := m.cerr }) ∨
    (∃ k w, k < 10 ∧ (draw64 g hw use_rdseed m).1 = some w ∧
      (draw64 g hw use_rdseed m).2 =
        { calls := m.calls ++ List.replicate (k + 1) (selected g use_rdseed),
          cerr := m.cerr }) := by
  rw [draw64_eq_draw]
  rcases draw_outcome g hw (selected g use_rdseed) m (selected_supported g use_rdseed hu) with
    ⟨h1, h2⟩ | ⟨k, v, hk, _, _, h2⟩
  · left; rw [h2]; exact ⟨rfl, h1, rfl⟩
  · right; rw [h2]; exact ⟨k, _, hk, rfl, rfl⟩

/-- The trace after `j` usable draws: between `j` and `10 * j` steps of the
selected instruction were added, and `std::cerr` is untouched. -/
theorem after_draws_trace (g : Generator) (hw : Hardware) (use_rdseed : Bool)
    (hu : usable g use_rdseed = true) :
    ∀ (j : Nat) (m : Machine), ∃ t, t ≤ 10 * j ∧
      (after_draws g hw use_rdseed j m).calls =
        m.calls ++ List.replicate t (selected g use_rdseed) ∧
      (after_draws g hw use_rdseed j m).cerr = m.cerr := by
  intro j
  induction j with
  | zero => intro m; exact ⟨0, by simp [after_draws]⟩
  | succ j ih =>
    intro m
    obtain ⟨t, ht, hc, he⟩ := ih (draw64 g hw use_rdseed m).2
    rcases draw64_outcome g hw use_rdseed m hu with ⟨_, _, h2⟩ | ⟨k, w, hk, _, h2⟩
    · refine ⟨10 + t, by omega, ?_, ?_⟩
      · rw [after_draws, hc, h2, List.append_assoc, ← List.replicate_add]
      · rw [after_draws, he, h2]
    · refine ⟨(k + 1) + t, by omega, ?_, ?_⟩
      · rw [after_draws, hc, h2, List.append_assoc, ← List.replicate_add]
      · rw [after_draws, he, h2]

/-- Reading the bytes of the first `d` draws when these all succeed. -/
theorem drawn_bytes_get (g : Generator) (hw : Hardware) (use_rdseed : Bool) :
    ∀ (d : Nat) (m : Machine) (k : Nat),
      (∀ j, j < d → nth_draw g hw use_rdseed j m ≠ none) → k < 8 * d →
      ∃ w, nth_draw g hw use_rdseed (k / 8) m = some w ∧
        (drawn_bytes g hw use_rdseed d m)[k]? = some (byte_of w (k % 8)) := by
  intro d
  induction d with
  | zero => intro m k _ hk; omega
  | succ d ih =>
    intro m k hok hk
    have h0 := hok 0 (Nat.succ_pos d)
    rw [nth_draw_zero] at h0
    obtain ⟨w, hw1⟩ := Option.ne_none_iff_exists'.mp h0
    by_cases hk8 : k < 8
    · refine ⟨w, ?_, ?_⟩
      · rw [Nat.div_eq_of_lt hk8, nth_draw_zero, hw1]
      · rw [drawn_bytes, hw1, Option.getD_some,
          List.getElem?_append_left (by rw [le_bytes_length]; exact hk8), Nat.mod_eq_of_lt hk8]
        simp [le_bytes, List.getElem?_range', hk8]
    · obtain ⟨w2, hw2, hb⟩ := ih (draw64 g hw use_rdseed m).2 (k - 8)
        (fun j hj => by rw [← nth_draw_succ]; exact hok (j + 1) (Nat.succ_lt_succ hj))
        (by omega)
      have hdiv : k / 8 = (k - 8) / 8 + 1 := by omega
      have hmod : k % 8 = (k - 8) % 8 := by omega
      refine ⟨w2, ?_, ?_⟩
      · rw [hdiv, nth_draw_succ, hw2]
      · rw [drawn_bytes, List.getElem?_append_right (by rw [le_bytes_length]; omega),
          le_bytes_length, hb, hmod]

theorem words_needed_gt_iff (n J : Nat) : J < words_needed n ↔ 8 * J < n := by
  unfold words_needed; omega

/-- The three ways a call of `generate_random_bytes` can run. -/
theorem run_cases (g : Generator) (hw : Hardware) (n : Nat) (use_rdseed : Bool) (m : Machine) :
    (usable g use_rdseed = false ∧
      generate_random_bytes g hw n use_rdseed m =
        some ([], if 0 < n then m.report .no_hardware_support else m)) ∨
    (usable g use_rdseed = true ∧
      (∀ j, j < words_needed n → nth_draw g hw use_rdseed j m ≠ none) ∧
      generate_random_bytes g hw n use_rdseed m =
        some ((drawn_bytes g hw use_rdseed (words_needed n) m).take n,
          after_draws g hw use_rdseed (words_needed n) m)) ∨
    (usable g use_rdseed = true ∧ ∃ J, 8 * J < n ∧
      (∀ j, j < J → nth_draw g hw use_rdseed j m ≠ none) ∧
      nth_draw g hw use_rdseed J m = none ∧
      generate_random_bytes g hw n use_rdseed m =
        some (drawn_bytes g hw use_rdseed J m,
          (after_draws g hw use_rdseed (J + 1) m).report .generation_failed)) := by
  cases hu : usable g use_rdseed with
  | false =>
    left
    refine ⟨rfl, ?_⟩
    unfold generate_random_bytes
    by_cases hn : 0 < n
    · rw [loop_unusable g hw n use_rdseed n [] m (by simpa using hn) hu, if_pos hn]
    · rw [loop_done g hw n use_rdseed n [] m (by simpa using hn), if_neg hn]
  | true =>
    right
    rcases all_or_first_not (fun j => nth_draw g hw use_rdseed j m ≠ none) (words_needed n) with
      hall | ⟨J, hJ, h1, h2⟩
    · left
      refine ⟨rfl, hall, ?_⟩
      unfold generate_random_bytes
      rw [loop_all_succeed g hw n use_rdseed hu (words_needed n) (n + 1) [] m (by simp)
        (by unfold words_needed; omega) hall]
      simp
    · right
      refine ⟨rfl, J, (words_needed_gt_iff n J).mp hJ, h1, not_not.mp h2, ?_⟩
      unfold generate_random_bytes
      rw [loop_first_failure g hw n use_rdseed hu J (n + 1) [] m
        (by simpa using (words_needed_gt_iff n J).mp hJ)
        (by have := (words_needed_gt_iff n J).mp hJ; omega) h1 (not_not.mp h2)]
      simp

end IntelRandomGenerator

/-! ## Properties of `generate_random_bytes` and of the draw operations -/

namespace IntelRandomGenerator

theorem byte_of_eq (w i : Nat) : byte_of w i = (w >>> (8 * i)) &&& 0xFF := by
  rw [byte_of, Nat.mul_comm]

theorem report_calls (m : Machine) (d : Diagnostic) : (m.report d).calls = m.calls := rfl

/-- C1: when a usable instruction is supported (RDRAND, or `use_rdseed` with
RDSEED) and each of the 64-bit draws of the call succeeds,
`generate_random_bytes n use_rdseed` returns a buffer of length exactly `n`. -/
theorem generate_random_bytes_length_eq (g : Generator) (hw : Hardware) (n : Nat)
    (use_rdseed : Bool) (m : Machine) (hu : usable g use_rdseed = true)
    (hok : ∀ j, j < words_needed n → nth_draw g hw use_rdseed j m ≠ none) :
    ∃ buf m', generate_random_bytes g hw n use_rdseed m = some (buf, m') ∧
      buf.length = n := by
  rcases run_cases g hw n use_rdseed m with ⟨h, _⟩ | ⟨_, _, h⟩ | ⟨_, J, hJ, _, hfail, _⟩
  · rw [hu] at h; cases h
  · refine ⟨_, _, h, ?_⟩
    rw [List.length_take, drawn_bytes_length]
    unfold words_needed; omega
  · exact absurd hfail (hok J ((words_needed_gt_iff n J).mpr hJ))

/-- Instance of C1: 20 bytes from RDRAND on a stream where every third step succeeds. -/
theorem generate_random_bytes_length_eq_witness :
    (usable ⟨true, false⟩ true = true ∧
      ∀ j, j < words_needed 20 → nth_draw ⟨true, false⟩ hw_third true j Machine.init ≠ none) ∧
    ∃ buf m', generate_random_bytes ⟨true, false⟩ hw_third 20 true Machine.init =
      some (buf, m') ∧ buf.length = 20 :=
  ⟨⟨by decide, by decide⟩,
    generate_random_bytes_length_eq ⟨true, false⟩ hw_third 20 true Machine.init
      (by decide) (by decide)⟩

/-- C2: every call of `generate_random_bytes` returns, and the byte at each index
`k` of the returned buffer is `(w >> (8 * (k mod 8))) & 0xFF` for `w` the word of
the `(k div 8)`-th 64-bit draw of the call, that draw and all earlier ones having
succeeded. -/
theorem generate_random_bytes_little_endian (g : Generator) (hw : Hardware) (n : Nat)
    (use_rdseed : Bool) (m : Machine) :
    ∃ buf m', generate_random_bytes g hw n use_rdseed m = some (buf, m') ∧
      ∀ k, k < buf.length →
        (∀ j, j < k / 8 → nth_draw g hw use_rdseed j m ≠ none) ∧
        ∃ w, nth_draw g hw use_rdseed (k / 8) m = some w ∧
          buf[k]? = some ((w >>> (8 * (k % 8))) &&& 0xFF) := by
  rcases run_cases g hw n use_rdseed m with ⟨_, h⟩ | ⟨_, hok, h⟩ | ⟨_, J, hJ, hok, _, h⟩
  · refine ⟨_, _, h, ?_⟩
    intro k hk
    simp at hk
  · refine ⟨_, _, h, ?_⟩
    intro k hk
    rw [List.length_take, drawn_bytes_length] at hk
    have hk8 : k / 8 < words_needed n := by unfold words_needed; omega
    refine ⟨fun j hj => hok j (by omega), ?_⟩
    obtain ⟨w, hw1, hw2⟩ := drawn_bytes_get g hw use_rdseed (words_needed n) m k hok
      (by unfold words_needed; omega)
    refine ⟨w, hw1, ?_⟩
    rw [List.getElem?_take_of_lt (by omega), hw2, byte_of_eq]
  · refine ⟨_, _, h, ?_⟩
    intro k hk
    rw [drawn_bytes_length] at hk
    refine ⟨fun j hj => hok j (by omega), ?_⟩
    obtain ⟨w, hw1, hw2⟩ := drawn_bytes_get g hw use_rdseed J m k hok hk
    exact ⟨w, hw1, by rw [hw2, byte_of_eq]⟩

/-- C3: every call of `generate_random_bytes n use_rdseed` returns a buffer of
length at most `n`; the length is below `n` only if no usable instruction is
supported or some 64-bit draw of the call, all earlier ones having succeeded,
failed on all of its 10 hardware attempts. -/
theorem generate_random_bytes_length_le (g : Generator) (hw : Hardware) (n : Nat)
    (use_rdseed : Bool) (m : Machine) :
    ∃ buf m', generate_random_bytes g hw n use_rdseed m = some (buf, m') ∧
      buf.length ≤ n ∧
      (buf.length < n →
        usable g use_rdseed = false ∨
        ∃ J, 8 * J < n ∧ (∀ j, j < J → nth_draw g hw use_rdseed j m ≠ none) ∧
          nth_draw g hw use_rdseed J m = none ∧
          ∀ i, i < 10 →
            hw ((after_draws g hw use_rdseed J m).calls.length + i)
              (selected g use_rdseed) = none) := by
  rcases run_cases g hw n use_rdseed m with ⟨hu, h⟩ | ⟨_, _, h⟩ | ⟨hu, J, hJ, hok, hfail, h⟩
  · exact ⟨_, _, h, by simp, fun _ => Or.inl hu⟩
  · refine ⟨_, _, h, ?_, ?_⟩
    · rw [List.length_take]; omega
    · intro hlt
      rw [List.length_take, drawn_bytes_length] at hlt
      unfold words_needed at hlt; omega
  · refine ⟨_, _, h, ?_, fun _ => Or.inr ⟨J, hJ, hok, hfail, ?_⟩⟩
    · rw [drawn_bytes_length]; omega
    · rcases draw64_outcome g hw use_rdseed (after_draws g hw use_rdseed J m) hu with
        ⟨_, h10, _⟩ | ⟨k, w, _, hs, _⟩
      · exact h10
      · rw [nth_draw, hs] at hfail; cases hfail

/-- C4: a draw operation whose instruction is supported executes its hardware step
at most 10 times, and it reports failure exactly when the 10 next responses of the
hardware are all failures, in which case it executed the step exactly 10 times. -/
theorem draw_retry_budget (g : Generator) (hw : Hardware) (ins : Instr) (m : Machine)
    (h : supported g ins.family = true) :
    ∃ k, k ≤ 10 ∧
      (draw g hw ins m).2.calls = m.calls ++ List.replicate k ins ∧
      ((draw g hw ins m).1 = none ↔ ∀ i, i < 10 → hw (m.calls.length + i) ins = none) ∧
      ((draw g hw ins m).1 = none → k = 10) := by
  rcases draw_outcome g hw ins m h with ⟨h1, h2⟩ | ⟨k, v, hk, _, hv, h2⟩
  · refine ⟨10, Nat.le_refl 10, ?_, ?_, fun _ => rfl⟩
    · rw [h2]
    · rw [h2]; exact ⟨fun _ => h1, fun _ => rfl⟩
  · refine ⟨k + 1, hk, ?_, ?_, ?_⟩
    · rw [h2]
    · rw [h2]
      constructor
      · intro hn; cases hn
      · intro hall; rw [hall k hk] at hv; cases hv
    · rw [h2]; intro hn; cases hn

/-- Instance of C4: `generate_rdseed32` on a stream that never succeeds. -/
theorem draw_retry_budget_witness :
    supported ⟨false, true⟩ Family.rdseed = true ∧
    ∃ k, k ≤ 10 ∧
      (draw ⟨false, true⟩ hw_dead ⟨.rdseed, .w32⟩ Machine.init).2.calls =
        Machine.init.calls ++ List.replicate k ⟨.rdseed, .w32⟩ ∧
      ((draw ⟨false, true⟩ hw_dead ⟨.rdseed, .w32⟩ Machine.init).1 = none ↔
        ∀ i, i < 10 → hw_dead (Machine.init.calls.length + i) ⟨.rdseed, .w32⟩ = none) ∧
      ((draw ⟨false, true⟩ hw_dead ⟨.rdseed, .w32⟩ Machine.init).1 = none → k = 10) :=
  ⟨by decide, draw_retry_budget ⟨false, true⟩ hw_dead ⟨.rdseed, .w32⟩ Machine.init (by decide)⟩

/-- C5: a draw operation reports success only if one of the 10 next hardware
responses is a success; the word it returns is the one of the first such response
(stored at the operand width), and the step was executed exactly up to and
including that response. -/
theorem draw_success_first_attempt (g : Generator) (hw : Hardware) (ins : Instr)
    (m : Machine) (w : Nat) (h : (draw g hw ins m).1 = some w) :
    ∃ i, i < 10 ∧ (∀ j, j < i → hw (m.calls.length + j) ins = none) ∧
      (∃ v, hw (m.calls.length + i) ins = some v ∧ w = v % 2 ^ ins.width.bits) ∧
      (draw g hw ins m).2.calls = m.calls ++ List.replicate (i + 1) ins := by
  cases hs : supported g ins.family with
  | false => rw [draw_unsupported g hw ins m hs] at h; cases h
  | true =>
    rcases draw_outcome g hw ins m hs with ⟨_, h2⟩ | ⟨k, v, hk, hfail, hv, h2⟩
    · rw [h2] at h; cases h
    · rw [h2] at h ⊢
      exact ⟨k, hk, hfail, ⟨v, hv, (Option.some.inj h).symm⟩, rfl⟩

/-- Instance of C5: `generate_rdrand32` succeeds at its third step and returns the low 32 bits of that response. -/
theorem draw_success_first_attempt_witness :
    (draw ⟨true, false⟩ hw_third ⟨.rdrand, .w32⟩ Machine.init).1 = some 0x0506070A ∧
    ∃ i, i < 10 ∧
      (∀ j, j < i → hw_third (Machine.init.calls.length + j) ⟨.rdrand, .w32⟩ = none) ∧
      (∃ v, hw_third (Machine.init.calls.length + i) ⟨.rdrand, .w32⟩ = some v ∧
        0x0506070A = v % 2 ^ Width.bits (Instr.mk Family.rdrand Width.w32).width) ∧
      (draw ⟨true, false⟩ hw_third ⟨.rdrand, .w32⟩ Machine.init).2.calls =
        Machine.init.calls ++ List.replicate (i + 1) ⟨.rdrand, .w32⟩ :=
  ⟨by decide,
    draw_success_first_attempt ⟨true, false⟩ hw_third ⟨.rdrand, .w32⟩ Machine.init 0x0506070A
      (by decide)⟩

end IntelRandomGenerator

namespace IntelRandomGenerator

/-- With RDSEED unsupported the loop does not depend on `use_rdseed`. -/
theorem loop_rdseed_unsupported (g : Generator) (hw : Hardware) (n : Nat)
    (hs : g.rdseed_supported = false) :
    ∀ (fuel : Nat) (result : List Nat) (m : Machine),
      generate_random_bytes_loop g hw n true fuel result m =
        generate_random_bytes_loop g hw n false fuel result m := by
  intro fuel
  induction fuel with
  | zero => intro result m; rfl
  | succ fuel ih =>
    intro result m
    simp only [generate_random_bytes_loop, hs, Bool.and_false, Bool.false_and, ih]

/-- The hardware steps of a call with a usable instruction are all steps of the
selected instruction. -/
theorem run_trace (g : Generator) (hw : Hardware) (n : Nat) (use_rdseed : Bool) (m : Machine)
    (hu : usable g use_rdseed = true) :
    ∃ buf m' t, generate_random_bytes g hw n use_rdseed m = some (buf, m') ∧
      m'.calls = m.calls ++ List.replicate t (selected g use_rdseed) := by
  rcases run_cases g hw n use_rdseed m with ⟨h, _⟩ | ⟨_, _, h⟩ | ⟨_, J, _, _, _, h⟩
  · rw [hu] at h; cases h
  · obtain ⟨t, _, hc, _⟩ := after_draws_trace g hw use_rdseed hu (words_needed n) m
    exact ⟨_, _, t, h, hc⟩
  · obtain ⟨t, _, hc, _⟩ := after_draws_trace g hw use_rdseed hu (J + 1) m
    exact ⟨_, _, t, h, by rw [report_calls, hc]⟩

/-- C6: when draw `J` of a call (0-based, `8 * J < n`, so the call does make it) is
the first 64-bit draw to fail, `generate_random_bytes n use_rdseed` returns exactly
the `8 * J` bytes of the `J` earlier words, fewer than `n`; the 10 hardware
responses consumed by the failing draw are all failures, its 10 steps are the last
hardware steps of the call, and every hardware step of the call is a step of the
one selected instruction (RDSEED when `use_rdseed` and RDSEED is supported, whether
or not RDRAND is supported). -/
theorem generate_random_bytes_stops_at_failure (g : Generator) (hw : Hardware) (n : Nat)
    (use_rdseed : Bool) (m : Machine) (J : Nat) (hu : usable g use_rdseed = true)
    (hJ : 8 * J < n) (hok : ∀ j, j < J → nth_draw g hw use_rdseed j m ≠ none)
    (hfail : nth_draw g hw use_rdseed J m = none) :
    ∃ buf m', generate_random_bytes g hw n use_rdseed m = some (buf, m') ∧
      buf.length = 8 * J ∧ buf.length < n ∧
      (∀ k, k < 8 * J → ∃ w, nth_draw g hw use_rdseed (k / 8) m = some w ∧
        buf[k]? = some ((w >>> (8 * (k % 8))) &&& 0xFF)) ∧
      (∀ i, i < 10 →
        hw ((after_draws g hw use_rdseed J m).calls.length + i) (selected g use_rdseed) = none) ∧
      m'.calls = (after_draws g hw use_rdseed J m).calls ++
        List.replicate 10 (selected g use_rdseed) ∧
      ∃ t, m'.calls = m.calls ++ List.replicate t (selected g use_rdseed) := by
  have hrun := loop_first_failure g hw n use_rdseed hu J (n + 1) [] m (by simpa using hJ)
    (by omega) hok hfail
  rw [List.nil_append] at hrun
  have hlast : (∀ i, i < 10 →
        hw ((after_draws g hw use_rdseed J m).calls.length + i) (selected g use_rdseed) = none) ∧
      (after_draws g hw use_rdseed (J + 1) m).calls =
        (after_draws g hw use_rdseed J m).calls ++ List.replicate 10 (selected g use_rdseed) := by
    rw [after_draws_succ_last]
    rcases draw64_outcome g hw use_rdseed (after_draws g hw use_rdseed J m) hu with
      ⟨_, h10, h2⟩ | ⟨k, w, _, hs, _⟩
    · exact ⟨h10, by rw [h2]⟩
    · rw [nth_draw, hs] at hfail; cases hfail
  obtain ⟨t, _, hc, _⟩ := after_draws_trace g hw use_rdseed hu (J + 1) m
  refine ⟨_, _, hrun, drawn_bytes_length g hw use_rdseed J m, ?_, ?_, hlast.1, ?_, t, ?_⟩
  · rw [drawn_bytes_length]; exact hJ
  · intro k hk
    obtain ⟨w, hw1, hw2⟩ := drawn_bytes_get g hw use_rdseed J m k hok hk
    exact ⟨w, hw1, by rw [hw2, byte_of_eq]⟩
  · rw [report_calls, hlast.2]
  · rw [report_calls, hc]

/-- Instance of C6: 200 bytes requested from RDSEED with RDRAND also supported; the sixth draw fails. -/
theorem generate_random_bytes_stops_at_failure_witness :
    (usable ⟨true, true⟩ true = true ∧ 8 * 5 < 200 ∧
      (∀ j, j < 5 → nth_draw ⟨true, true⟩ hw_five true j Machine.init ≠ none) ∧
      nth_draw ⟨true, true⟩ hw_five true 5 Machine.init = none) ∧
    ∃ buf m', generate_random_bytes ⟨true, true⟩ hw_five 200 true Machine.init =
        some (buf, m') ∧
      buf.length = 8 * 5 ∧ buf.length < 200 ∧
      (∀ k, k < 8 * 5 → ∃ w, nth_draw ⟨true, true⟩ hw_five true (k / 8) Machine.init = some w ∧
        buf[k]? = some ((w >>> (8 * (k % 8))) &&& 0xFF)) ∧
      (∀ i, i < 10 →
        hw_five ((after_draws ⟨true, true⟩ hw_five true 5 Machine.init).calls.length + i)
          (selected ⟨true, true⟩ true) = none) ∧
      m'.calls = (after_draws ⟨true, true⟩ hw_five true 5 Machine.init).calls ++
        List.replicate 10 (selected ⟨true, true⟩ true) ∧
      ∃ t, m'.calls = Machine.init.calls ++ List.replicate t (selected ⟨true, true⟩ true) :=
  ⟨⟨by decide, by decide, by decide, by decide⟩,
    generate_random_bytes_stops_at_failure ⟨true, true⟩ hw_five 200 true Machine.init 5
      (by decide) (by decide) (by decide) (by decide)⟩

/-- C7: with RDSEED unsupported and RDRAND supported, `generate_random_bytes n true`
returns the same buffer and leaves the same machine (hence the same trace of
hardware steps) as `generate_random_bytes n false`, and every hardware step of
the call is an RDRAND 64-bit step. -/
theorem generate_random_bytes_fallback (g : Generator) (hw : Hardware) (n : Nat)
    (m : Machine) (hs : g.rdseed_supported = false) (hr : g.rdrand_supported = true) :
    generate_random_bytes g hw n true m = generate_random_bytes g hw n false m ∧
    ∃ buf m' t, generate_random_bytes g hw n true m = some (buf, m') ∧
      m'.calls = m.calls ++ List.replicate t ⟨.rdrand, .w64⟩ := by
  refine ⟨loop_rdseed_unsupported g hw n hs (n + 1) [] m, ?_⟩
  have hu : usable g true = true := by simp [usable, hr]
  have hsel : selected g true = ⟨.rdrand, .w64⟩ := by simp [selected, hs]
  have := run_trace g hw n true m hu
  rwa [hsel] at this

/-- Instance of C7: 20 bytes with RDRAND only. -/
theorem generate_random_bytes_fallback_witness :
    ((⟨true, false⟩ : Generator).rdseed_supported = false ∧
      (⟨true, false⟩ : Generator).rdrand_supported = true) ∧
    (generate_random_bytes ⟨true, false⟩ hw_third 20 true Machine.init =
        generate_random_bytes ⟨true, false⟩ hw_third 20 false Machine.init ∧
      ∃ buf m' t, generate_random_bytes ⟨true, false⟩ hw_third 20 true Machine.init =
          some (buf, m') ∧
        m'.calls = Machine.init.calls ++ List.replicate t ⟨.rdrand, .w64⟩) :=
  ⟨⟨rfl, rfl⟩, generate_random_bytes_fallback ⟨true, false⟩ hw_third 20 Machine.init rfl rfl⟩

/-- C8 as stated fails for the requested length 0: with neither instruction
supported, `generate_random_bytes 0 false` returns the empty buffer and executes no
hardware step, but nothing is written to `std::cerr`, so no `NoHardwareSupport` is
signalled. -/
theorem no_hardware_support_not_signalled_at_zero :
    ¬ ∃ buf m', generate_random_bytes ⟨false, false⟩ hw_dead 0 false Machine.init =
        some (buf, m') ∧
      buf.length = 0 ∧ Diagnostic.no_hardware_support ∈ m'.cerr ∧
      m'.calls = Machine.init.calls := by
  rintro ⟨buf, m', h, _, hmem, _⟩
  have hrun : generate_random_bytes ⟨false, false⟩ hw_dead 0 false Machine.init =
      some ([], Machine.init) := by decide
  rw [hrun] at h
  obtain ⟨-, rfl⟩ := Prod.mk.inj (Option.some.inj h)
  simp [Machine.init] at hmem

/-- C8 (amended): with neither RDRAND nor RDSEED supported,
`generate_random_bytes n use_rdseed` returns the empty buffer and executes no
hardware step; for `n ≥ 1` it signals `NoHardwareSupport` by writing exactly that
one line to `std::cerr`, and for `n = 0` it leaves the machine untouched. -/
theorem generate_random_bytes_no_hardware (g : Generator) (hw : Hardware) (n : Nat)
    (use_rdseed : Bool) (m : Machine) (hr : g.rdrand_supported = false)
    (hs : g.rdseed_supported = false) :
    ∃ buf m', generate_random_bytes g hw n use_rdseed m = some (buf, m') ∧
      buf.length = 0 ∧ m'.calls = m.calls ∧
      (0 < n → m'.cerr = m.cerr ++ [Diagnostic.no_hardware_support]) ∧
      (n = 0 → m' = m) := by
  have hu : usable g use_rdseed = false := by simp [usable, hr, hs]
  rcases run_cases g hw n use_rdseed m with ⟨_, h⟩ | ⟨h, _⟩ | ⟨h, _⟩
  · refine ⟨_, _, h, rfl, ?_, ?_, ?_⟩
    · split <;> rfl
    · intro hn; rw [if_pos hn]; rfl
    · intro hn; rw [if_neg (by omega)]
  · rw [hu] at h; cases h
  · rw [hu] at h; cases h

/-- Instance of the amended C8: 8 bytes requested, neither instruction supported. -/
theorem generate_random_bytes_no_hardware_witness :
    ((⟨false, false⟩ : Generator).rdrand_supported = false ∧
      (⟨false, false⟩ : Generator).rdseed_supported = false) ∧
    ∃ buf m', generate_random_bytes ⟨false, false⟩ hw_third 8 true Machine.init =
        some (buf, m') ∧
      buf.length = 0 ∧ m'.calls = Machine.init.calls ∧
      (0 < 8 → m'.cerr = Machine.init.cerr ++ [Diagnostic.no_hardware_support]) ∧
      (8 = 0 → m' = Machine.init) :=
  ⟨⟨rfl, rfl⟩,
    generate_random_bytes_no_hardware ⟨false, false⟩ hw_third 8 true Machine.init rfl rfl⟩

/-- C9: a draw operation whose instruction family is unsupported returns `false`
at once and leaves the machine untouched: no hardware step is executed. -/
theorem draw_unsupported_immediate (g : Generator) (hw : Hardware) (ins : Instr)
    (m : Machine) (h : supported g ins.family = false) :
    (draw g hw ins m).1 = none ∧ (draw g hw ins m).2 = m ∧
      (draw g hw ins m).2.calls = m.calls := by
  rw [draw_unsupported g hw ins m h]
  exact ⟨rfl, rfl, rfl⟩

/-- Instance of C9: `generate_rdseed64` without RDSEED support. -/
theorem draw_unsupported_immediate_witness :
    supported ⟨true, false⟩ Family.rdseed = false ∧
    ((draw ⟨true, false⟩ hw_third ⟨.rdseed, .w64⟩ Machine.init).1 = none ∧
      (draw ⟨true, false⟩ hw_third ⟨.rdseed, .w64⟩ Machine.init).2 = Machine.init ∧
      (draw ⟨true, false⟩ hw_third ⟨.rdseed, .w64⟩ Machine.init).2.calls =
        Machine.init.calls) :=
  ⟨by decide,
    draw_unsupported_immediate ⟨true, false⟩ hw_third ⟨.rdseed, .w64⟩ Machine.init (by decide)⟩

/-- C10: `generate_random_bytes 0 use_rdseed` returns the empty buffer and leaves
the machine untouched (no hardware step, no draw), whatever the support flags and
the hardware responses. -/
theorem generate_random_bytes_zero (g : Generator) (hw : Hardware) (use_rdseed : Bool)
    (m : Machine) :
    generate_random_bytes g hw 0 use_rdseed m = some ([], m) := by
  unfold generate_random_bytes
  exact loop_done g hw 0 use_rdseed 0 [] m (by simp)

end IntelRandomGenerator

/-! ## Hexadecimal text -/

namespace IntelRandomGenerator

theorem hex_value_digitChar : ∀ d, d < 16 → hex_value (Nat.digitChar d) = some d := by
  decide

theorem hex_digits_get : ∀ d, d < 16 → hex_digits[d]? = some (Nat.digitChar d) := by
  decide

theorem digitChar_mem_hex_digits : ∀ d, d < 16 → Nat.digitChar d ∈ hex_digits := by
  decide

set_option maxRecDepth 100000 in
/-- A value below 256 is printed as exactly two digits, high nibble first. -/
theorem format_byte_eq :
    ∀ b, b < 256 → format_byte b = [Nat.digitChar (b / 16), Nat.digitChar (b % 16)] := by
  decide

theorem hex_loop_foldl (bytes : List Nat) :
    ∀ acc : List Char,
      bytes.foldl (fun hex_string byte => hex_string ++ format_byte byte) acc =
        acc ++ hex_loop bytes := by
  induction bytes with
  | nil => intro acc; simp [hex_loop]
  | cons b bs ih =>
    intro acc
    simp only [hex_loop, List.foldl_cons, List.nil_append]
    rw [ih (acc ++ format_byte b), ih (format_byte b)]
    simp [hex_loop]

theorem hex_loop_nil : hex_loop [] = [] := rfl

theorem hex_loop_cons (b : Nat) (bs : List Nat) :
    hex_loop (b :: bs) = format_byte b ++ hex_loop bs := by
  rw [hex_loop, List.foldl_cons, hex_loop_foldl, List.nil_append]

theorem hex_loop_cons_lt (b : Nat) (bs : List Nat) (hb : b < 256) :
    hex_loop (b :: bs) = Nat.digitChar (b / 16) :: Nat.digitChar (b % 16) :: hex_loop bs := by
  rw [hex_loop_cons, format_byte_eq b hb]; rfl

theorem hex_loop_length (B : List Nat) (hB : ∀ b ∈ B, b < 256) :
    (hex_loop B).length = 2 * B.length := by
  induction B with
  | nil => rfl
  | cons b bs ih =>
    rw [hex_loop_cons_lt b bs (hB b (List.mem_cons_self b bs))]
    simp only [List.length_cons]
    rw [ih (fun x hx => hB x (List.mem_cons_of_mem b hx))]
    omega

theorem hex_loop_chars (B : List Nat) (hB : ∀ b ∈ B, b < 256) :
    ∀ c ∈ hex_loop B, c ∈ hex_digits := by
  induction B with
  | nil => intro c hc; simp [hex_loop_nil] at hc
  | cons b bs ih =>
    intro c hc
    have hb := hB b (List.mem_cons_self b bs)
    rw [hex_loop_cons_lt b bs hb] at hc
    rcases List.mem_cons.mp hc with h | hc
    · rw [h]; exact digitChar_mem_hex_digits _ (by omega)
    · rcases List.mem_cons.mp hc with h | hc
      · rw [h]; exact digitChar_mem_hex_digits _ (Nat.mod_lt _ (by decide))
      · exact ih (fun x hx => hB x (List.mem_cons_of_mem b hx)) c hc

theorem hex_loop_get (B : List Nat) (hB : ∀ b ∈ B, b < 256) :
    ∀ k b, B[k]? = some b →
      (hex_loop B)[2 * k]? = hex_digits[b / 16]? ∧
      (hex_loop B)[2 * k + 1]? = hex_digits[b % 16]? := by
  induction B with
  | nil => intro k b h; simp at h
  | cons x xs ih =>
    intro k b h
    have hx := hB x (List.mem_cons_self x xs)
    rw [hex_loop_cons_lt x xs hx]
    cases k with
    | zero =>
      simp only [List.getElem?_cons_zero, Option.some.injEq] at h
      subst h
      rw [hex_digits_get _ (by omega), hex_digits_get _ (Nat.mod_lt _ (by decide))]
      exact ⟨List.getElem?_cons_zero, by
        rw [Nat.mul_zero, Nat.zero_add, List.getElem?_cons_succ, List.getElem?_cons_zero]⟩
    | succ k =>
      rw [List.getElem?_cons_succ] at h
      have := ih (fun y hy => hB y (List.mem_cons_of_mem x hy)) k b h
      have e1 : 2 * (k + 1) = (2 * k + 1) + 1 := by omega
      rw [e1]
      simpa only [List.getElem?_cons_succ] using this

theorem byte_of_lt (w i : Nat) : byte_of w i < 256 := by
  unfold byte_of
  exact Nat.lt_of_le_of_lt Nat.and_le_right (by decide)

theorem drawn_bytes_lt (g : Generator) (hw : Hardware) (use_rdseed : Bool) :
    ∀ (j : Nat) (m : Machine), ∀ b ∈ drawn_bytes g hw use_rdseed j m, b < 256 := by
  intro j
  induction j with
  | zero => intro m b hb; simp [drawn_bytes] at hb
  | succ j ih =>
    intro m b hb
    rw [drawn_bytes] at hb
    rcases List.mem_append.mp hb with h | h
    · unfold le_bytes at h
      obtain ⟨i, _, rfl⟩ := List.mem_map.mp h
      exact byte_of_lt _ _
    · exact ih _ b h

/-- Every call returns, and the returned values are bytes. -/
theorem run_bytes (g : Generator) (hw : Hardware) (n : Nat) (use_rdseed : Bool) (m : Machine) :
    ∃ buf m', generate_random_bytes g hw n use_rdseed m = some (buf, m') ∧
      ∀ b ∈ buf, b < 256 := by
  rcases run_cases g hw n use_rdseed m with ⟨_, h⟩ | ⟨_, _, h⟩ | ⟨_, J, _, _, _, h⟩
  · exact ⟨_, _, h, by simp⟩
  · exact ⟨_, _, h, fun b hb => drawn_bytes_lt g hw use_rdseed _ m b (List.mem_of_mem_take hb)⟩
  · exact ⟨_, _, h, drawn_bytes_lt g hw use_rdseed J m⟩

end IntelRandomGenerator

/-! ## Counting draws and hardware steps -/

namespace IntelRandomGenerator

theorem after_draws_add (g : Generator) (hw : Hardware) (use_rdseed : Bool) :
    ∀ (a c : Nat) (m : Machine),
      after_draws g hw use_rdseed (a + c) m =
        after_draws g hw use_rdseed c (after_draws g hw use_rdseed a m) := by
  intro a
  induction a with
  | zero => intro c m; rw [Nat.zero_add]; rfl
  | succ a ih =>
    intro c m
    rw [show a + 1 + c = (a + c) + 1 by omega, after_draws, ih, after_draws]

theorem nth_draw_add (g : Generator) (hw : Hardware) (use_rdseed : Bool) (a c : Nat)
    (m : Machine) :
    nth_draw g hw use_rdseed (a + c) m =
      nth_draw g hw use_rdseed c (after_draws g hw use_rdseed a m) := by
  rw [nth_draw, after_draws_add]; rfl

theorem drawn_bytes_add (g : Generator) (hw : Hardware) (use_rdseed : Bool) :
    ∀ (a c : Nat) (m : Machine),
      drawn_bytes g hw use_rdseed (a + c) m =
        drawn_bytes g hw use_rdseed a m ++
          drawn_bytes g hw use_rdseed c (after_draws g hw use_rdseed a m) := by
  intro a
  induction a with
  | zero => intro c m; rw [Nat.zero_add]; rfl
  | succ a ih =>
    intro c m
    rw [show a + 1 + c = (a + c) + 1 by omega, drawn_bytes, ih, drawn_bytes, after_draws,
      List.append_assoc]

theorem drawn_bytes_one (g : Generator) (hw : Hardware) (use_rdseed : Bool) (m : Machine) :
    drawn_bytes g hw use_rdseed 1 m = le_bytes ((nth_draw g hw use_rdseed 0 m).getD 0) := by
  rw [drawn_bytes, drawn_bytes, List.append_nil, nth_draw_zero]

/-- The first failing draw is unique. -/
theorem first_failure_unique (P : Nat → Prop) (J K : Nat)
    (hJ : ∀ j, j < J → P j) (hJ' : ¬ P J) (hK : ∀ j, j < K → P j) (hK' : ¬ P K) : J = K := by
  rcases Nat.lt_trichotomy J K with h | h | h
  · exact absurd (hK J h) hJ'
  · exact h
  · exact absurd (hJ K h) hK'

theorem successes_add (hw : Hardware) (ins : Instr) (p a b : Nat) :
    successes hw ins p (a + b) = successes hw ins p a + successes hw ins (p + a) b := by
  unfold successes
  have : List.range' p (a + b) = List.range' p a ++ List.range' (p + a) b := by
    rw [List.range'_append_1, Nat.add_comm b a]
  rw [this, List.filter_append, List.length_append]

theorem successes_none (hw : Hardware) (ins : Instr) (p t : Nat)
    (h : ∀ i, i < t → hw (p + i) ins = none) : successes hw ins p t = 0 := by
  unfold successes
  rw [List.length_eq_zero, List.filter_eq_nil_iff]
  intro x hx
  rw [List.mem_range'_1] at hx
  have := h (x - p) (by omega)
  rw [show p + (x - p) = x by omega] at this
  simp [this]

theorem successes_first (hw : Hardware) (ins : Instr) (p k v : Nat)
    (h : ∀ i, i < k → hw (p + i) ins = none) (hv : hw (p + k) ins = some v) :
    successes hw ins p (k + 1) = 1 := by
  rw [successes_add, successes_none hw ins p k h]
  simp [successes, hv]

/-- A usable draw in terms of the hardware stream: 10 failed steps and no word, or
a word after `k + 1 ≤ 10` steps of which only the last one succeeds. -/
theorem draw64_steps (g : Generator) (hw : Hardware) (use_rdseed : Bool) (m : Machine)
    (hu : usable g use_rdseed = true) :
    ∃ t, 1 ≤ t ∧ t ≤ 10 ∧
      (draw64 g hw use_rdseed m).2 =
        { calls := m.calls ++ List.replicate t (selected g use_rdseed), cerr := m.cerr } ∧
      successes hw (selected g use_rdseed) m.calls.length t =
        (if (draw64 g hw use_rdseed m).1 = none then 0 else 1) := by
  rw [draw64_eq_draw]
  rcases draw_outcome g hw (selected g use_rdseed) m (selected_supported g use_rdseed hu) with
    ⟨h1, h2⟩ | ⟨k, v, hk, hfail, hv, h2⟩
  · refine ⟨10, by omega, by omega, by rw [h2], ?_⟩
    rw [h2, successes_none hw _ _ 10 h1]; rfl
  · refine ⟨k + 1, by omega, by omega, by rw [h2], ?_⟩
    rw [h2, successes_first hw _ _ k v hfail hv]; rfl

/-- After `j` usable draws between `j` and `10 * j` steps of the selected
instruction were added to the trace; if the draws all succeeded, exactly `j` of
the consumed hardware responses are successes. -/
theorem after_draws_steps (g : Generator) (hw : Hardware) (use_rdseed : Bool)
    (hu : usable g use_rdseed = true) :
    ∀ (j : Nat) (m : Machine), ∃ t, j ≤ t ∧ t ≤ 10 * j ∧
      (after_draws g hw use_rdseed j m).calls =
        m.calls ++ List.replicate t (selected g use_rdseed) ∧
      ((∀ i, i < j → nth_draw g hw use_rdseed i m ≠ none) →
        successes hw (selected g use_rdseed) m.calls.length t = j) := by
  intro j
  induction j with
  | zero => intro m; exact ⟨0, by simp [after_draws, successes]⟩
  | succ j ih =>
    intro m
    obtain ⟨t1, h1, h10, hm, hs⟩ := draw64_steps g hw use_rdseed m hu
    obtain ⟨t, ht, ht', hc, hsucc⟩ := ih (draw64 g hw use_rdseed m).2
    refine ⟨t1 + t, by omega, by omega, ?_, ?_⟩
    · rw [after_draws, hc, hm, List.append_assoc, ← List.replicate_add]
    · intro hok
      have h0 := hok 0 (Nat.succ_pos j)
      rw [nth_draw_zero] at h0
      rw [if_neg h0] at hs
      have hrest := hsucc (fun i hi => by
        rw [← nth_draw_succ]; exact hok (i + 1) (Nat.succ_lt_succ hi))
      rw [hm] at hrest
      simp only [List.length_append, List.length_replicate] at hrest
      rw [successes_add, hs, hrest]; omega

end IntelRandomGenerator

/-! ## Instruction selection, word count and hexadecimal output -/

namespace IntelRandomGenerator

/-- C11: with a usable instruction, every hardware step executed by
`generate_random_bytes n use_rdseed` is a 64-bit step of one instruction: RDSEED
when `use_rdseed` is true and RDSEED is supported (whether or not RDRAND is
supported), RDRAND otherwise. -/
theorem generate_random_bytes_instruction (g : Generator) (hw : Hardware) (n : Nat)
    (use_rdseed : Bool) (m : Machine) (hu : usable g use_rdseed = true) :
    ∃ buf m' t, generate_random_bytes g hw n use_rdseed m = some (buf, m') ∧
      m'.calls = m.calls ++ List.replicate t
        (if use_rdseed = true ∧ g.rdseed_supported = true then Instr.mk Family.rdseed Width.w64
          else Instr.mk Family.rdrand Width.w64) := by
  have hsel : selected g use_rdseed =
      (if use_rdseed = true ∧ g.rdseed_supported = true then Instr.mk Family.rdseed Width.w64
        else Instr.mk Family.rdrand Width.w64) := by
    unfold selected
    cases use_rdseed <;> cases g.rdseed_supported <;> rfl
  rw [← hsel]
  exact run_trace g hw n use_rdseed m hu

/-- Instance of C11: RDSEED requested and supported, RDRAND supported as well. -/
theorem generate_random_bytes_instruction_witness :
    usable ⟨true, true⟩ true = true ∧
    ∃ buf m' t, generate_random_bytes ⟨true, true⟩ hw_third 20 true Machine.init =
        some (buf, m') ∧
      m'.calls = Machine.init.calls ++ List.replicate t
        (if true = true ∧ (Generator.mk true true).rdseed_supported = true
          then Instr.mk Family.rdseed Width.w64 else Instr.mk Family.rdrand Width.w64) :=
  ⟨by decide, generate_random_bytes_instruction ⟨true, true⟩ hw_third 20 true Machine.init
    (by decide)⟩

theorem words_needed_split (n : Nat) :
    words_needed n = n / 8 + (if n % 8 = 0 then 0 else 1) := by
  unfold words_needed
  split <;> omega

/-- The first `n` of the bytes of the `ceil (n / 8)` draws: all bytes of the first
`n / 8` words and the `n % 8` low-order bytes of the next one. -/
theorem take_drawn_bytes (g : Generator) (hw : Hardware) (use_rdseed : Bool) (n : Nat)
    (m : Machine) :
    (drawn_bytes g hw use_rdseed (words_needed n) m).take n =
      drawn_bytes g hw use_rdseed (n / 8) m ++
        (le_bytes ((nth_draw g hw use_rdseed (n / 8) m).getD 0)).take (n % 8) := by
  rw [words_needed_split]
  by_cases h : n % 8 = 0
  · rw [if_pos h, Nat.add_zero, h, List.take_zero, List.append_nil]
    apply List.take_of_length_le
    rw [drawn_bytes_length]; omega
  · rw [if_neg h, drawn_bytes_add, List.take_append_eq_append_take, drawn_bytes_length,
      drawn_bytes_one, List.take_of_length_le (by rw [drawn_bytes_length]; omega)]
    have e : n - 8 * (n / 8) = n % 8 := by omega
    have e2 : nth_draw g hw use_rdseed 0 (after_draws g hw use_rdseed (n / 8) m) =
        nth_draw g hw use_rdseed (n / 8) m := by
      have := nth_draw_add g hw use_rdseed (n / 8) 0 m
      rw [Nat.add_zero] at this
      exact this.symm
    rw [e, e2]

/-- C12: a call `generate_random_bytes n use_rdseed` that returns a full `n`-byte
buffer performs exactly `ceil (n / 8)` 64-bit draws, all successful: the machine it
leaves is the one after these draws and exactly `ceil (n / 8)` of the hardware
responses it consumed are successes. `n / 8` words contribute their 8 bytes and,
when `n` is not a multiple of 8, one further word its `n % 8` low-order bytes. -/
theorem generate_random_bytes_word_count (g : Generator) (hw : Hardware) (n : Nat)
    (use_rdseed : Bool) (m : Machine) (buf : List Nat) (m' : Machine)
    (hrun : generate_random_bytes g hw n use_rdseed m = some (buf, m'))
    (hfull : buf.length = n) :
    (∀ j, j < words_needed n → nth_draw g hw use_rdseed j m ≠ none) ∧
    m' = after_draws g hw use_rdseed (words_needed n) m ∧
    (∃ t, m'.calls = m.calls ++ List.replicate t (selected g use_rdseed) ∧
      successes hw (selected g use_rdseed) m.calls.length t = words_needed n) ∧
    words_needed n = n / 8 + (if n % 8 = 0 then 0 else 1) ∧
    (drawn_bytes g hw use_rdseed (n / 8) m).length = 8 * (n / 8) ∧
    buf = drawn_bytes g hw use_rdseed (n / 8) m ++
      (le_bytes ((nth_draw g hw use_rdseed (n / 8) m).getD 0)).take (n % 8) := by
  rcases run_cases g hw n use_rdseed m with ⟨hu, h⟩ | ⟨hu, hok, h⟩ | ⟨_, J, hJ, _, _, h⟩
  · rw [hrun] at h
    obtain ⟨rfl, rfl⟩ := Prod.mk.inj (Option.some.inj h)
    have hn : n = 0 := by simpa using hfull.symm
    subst hn
    refine ⟨fun j hj => by simp [words_needed] at hj, by simp [after_draws, words_needed],
      ⟨0, by simp [successes, words_needed]⟩, by simp [words_needed], by simp [drawn_bytes],
      by simp [drawn_bytes]⟩
  · rw [hrun] at h
    obtain ⟨rfl, rfl⟩ := Prod.mk.inj (Option.some.inj h)
    obtain ⟨t, _, _, hc, hs⟩ := after_draws_steps g hw use_rdseed hu (words_needed n) m
    exact ⟨hok, rfl, ⟨t, hc, hs hok⟩, words_needed_split n, drawn_bytes_length _ _ _ _ _,
      take_drawn_bytes g hw use_rdseed n m⟩
  · rw [hrun] at h
    obtain ⟨rfl, rfl⟩ := Prod.mk.inj (Option.some.inj h)
    rw [drawn_bytes_length] at hfull
    omega

/-- Instance of C12, the scenario of the specification: 20 bytes with RDRAND only
take 3 draws, 16 bytes from 2 full words and 4 bytes of a third. -/
theorem generate_random_bytes_word_count_witness :
    (generate_random_bytes ⟨true, false⟩ hw_third 20 false Machine.init =
        some ([10, 7, 6, 5, 4, 3, 2, 1, 13, 7, 6, 5, 4, 3, 2, 1, 16, 7, 6, 5],
          ⟨List.replicate 9 ⟨.rdrand, .w64⟩, []⟩) ∧
      [10, 7, 6, 5, 4, 3, 2, 1, 13, 7, 6, 5, 4, 3, 2, 1, 16, 7, 6, 5].length = 20) ∧
    words_needed 20 = 3 ∧ 20 / 8 = 2 ∧ 20 % 8 = 4 ∧
    selected ⟨true, false⟩ false = ⟨.rdrand, .w64⟩ ∧
    ((∀ j, j < words_needed 20 → nth_draw ⟨true, false⟩ hw_third false j Machine.init ≠ none) ∧
    (⟨List.replicate 9 ⟨.rdrand, .w64⟩, []⟩ : Machine) =
      after_draws ⟨true, false⟩ hw_third false (words_needed 20) Machine.init ∧
    (∃ t, (⟨List.replicate 9 ⟨.rdrand, .w64⟩, []⟩ : Machine).calls =
        Machine.init.calls ++ List.replicate t (selected ⟨true, false⟩ false) ∧
      successes hw_third (selected ⟨true, false⟩ false) Machine.init.calls.length t =
        words_needed 20) ∧
    words_needed 20 = 20 / 8 + (if 20 % 8 = 0 then 0 else 1) ∧
    (drawn_bytes ⟨true, false⟩ hw_third false (20 / 8) Machine.init).length = 8 * (20 / 8) ∧
    [10, 7, 6, 5, 4, 3, 2, 1, 13, 7, 6, 5, 4, 3, 2, 1, 16, 7, 6, 5] =
      drawn_bytes ⟨true, false⟩ hw_third false (20 / 8) Machine.init ++
        (le_bytes ((nth_draw ⟨true, false⟩ hw_third false (20 / 8) Machine.init).getD 0)).take
          (20 % 8)) :=
  ⟨⟨by decide, by decide⟩, by decide, by decide, by decide, by decide,
    generate_random_bytes_word_count ⟨true, false⟩ hw_third 20 false Machine.init
      [10, 7, 6, 5, 4, 3, 2, 1, 13, 7, 6, 5, 4, 3, 2, 1, 16, 7, 6, 5]
      ⟨List.replicate 9 ⟨.rdrand, .w64⟩, []⟩ (by decide) (by decide)⟩

/-- C13: decoding the text that the formatting loop of `generate_hex_string`
produces for a byte buffer `B`, two characters at a time as base-16 numbers, gives
back `B`. -/
theorem hex_round_trip (B : List Nat) (hB : ∀ b ∈ B, b < 256) :
    hex_decode (hex_loop B) = some B := by
  induction B with
  | nil => rfl
  | cons b bs ih =>
    have hb := hB b (List.mem_cons_self b bs)
    rw [hex_loop_cons_lt b bs hb, hex_decode, hex_value_digitChar _ (by omega),
      hex_value_digitChar _ (Nat.mod_lt _ (by decide)),
      ih (fun x hx => hB x (List.mem_cons_of_mem b hx))]
    simp only [Option.some.injEq, List.cons.injEq, and_true]
    omega

/-- Instance of C13. -/
theorem hex_round_trip_witness :
    (∀ b ∈ [0, 1, 15, 16, 171, 255], b < 256) ∧
    hex_decode (hex_loop [0, 1, 15, 16, 171, 255]) = some [0, 1, 15, 16, 171, 255] :=
  ⟨by decide, hex_round_trip [0, 1, 15, 16, 171, 255] (by decide)⟩

/-- C14: the text that the formatting loop of `generate_hex_string` produces for a
byte buffer `B` has `2 * B.length` characters, all of them lowercase hexadecimal
digits, and characters `2 * k` and `2 * k + 1` are the digits of the high and the
low nibble of byte `k`; `generate_hex_string n use_rdseed` returns a string twice
as long as the buffer that `generate_random_bytes n use_rdseed` returns. -/
theorem hex_string_format (B : List Nat) (hB : ∀ b ∈ B, b < 256) (g : Generator)
    (hw : Hardware) (n : Nat) (use_rdseed : Bool) (m : Machine) :
    (hex_loop B).length = 2 * B.length ∧
    (∀ c ∈ hex_loop B, c ∈ hex_digits) ∧
    (∀ k b, B[k]? = some b →
      (hex_loop B)[2 * k]? = hex_digits[b / 16]? ∧
      (hex_loop B)[2 * k + 1]? = hex_digits[b % 16]?) ∧
    ∃ bytes s m', generate_random_bytes g hw n use_rdseed m = some (bytes, m') ∧
      generate_hex_string g hw n use_rdseed m = some (s, m') ∧
      s = hex_loop bytes ∧ s.length = 2 * bytes.length := by
  refine ⟨hex_loop_length B hB, hex_loop_chars B hB, hex_loop_get B hB, ?_⟩
  obtain ⟨buf, m', hrun, hlt⟩ := run_bytes g hw n use_rdseed m
  refine ⟨buf, hex_loop buf, m', hrun, ?_, rfl, hex_loop_length buf hlt⟩
  rw [generate_hex_string, hrun]

/-- Instance of C14. -/
theorem hex_string_format_witness :
    (∀ b ∈ [0, 1, 15, 16, 171, 255], b < 256) ∧
    ((hex_loop [0, 1, 15, 16, 171, 255]).length = 2 * [0, 1, 15, 16, 171, 255].length ∧
    (∀ c ∈ hex_loop [0, 1, 15, 16, 171, 255], c ∈ hex_digits) ∧
    (∀ k b, [0, 1, 15, 16, 171, 255][k]? = some b →
      (hex_loop [0, 1, 15, 16, 171, 255])[2 * k]? = hex_digits[b / 16]? ∧
      (hex_loop [0, 1, 15, 16, 171, 255])[2 * k + 1]? = hex_digits[b % 16]?) ∧
    ∃ bytes s m', generate_random_bytes ⟨true, false⟩ hw_third 5 false Machine.init =
        some (bytes, m') ∧
      generate_hex_string ⟨true, false⟩ hw_third 5 false Machine.init = some (s, m') ∧
      s = hex_loop bytes ∧ s.length = 2 * bytes.length) :=
  ⟨by decide, hex_string_format [0, 1, 15, 16, 171, 255] (by decide) ⟨true, false⟩ hw_third 5
    false Machine.init⟩

end IntelRandomGenerator

/-! ## Console output, the menu's length check, termination and step counts -/

namespace IntelRandomGenerator

theorem report_cerr (m : Machine) (d : Diagnostic) : (m.report d).cerr = m.cerr ++ [d] := rfl

/-- C15 as stated fails: with neither instruction supported,
`generate_random_bytes 8 false` writes a line to `std::cerr` (line 103), so the
output log does not stay unchanged. -/
theorem generate_random_bytes_writes_cerr :
    ¬ ∃ buf m', generate_random_bytes ⟨false, false⟩ hw_dead 8 false Machine.init =
        some (buf, m') ∧ m'.cerr = Machine.init.cerr := by
  rintro ⟨buf, m', h, hlog⟩
  have hrun : generate_random_bytes ⟨false, false⟩ hw_dead 8 false Machine.init =
      some ([], ⟨[], [Diagnostic.no_hardware_support]⟩) := by decide
  rw [hrun] at h
  obtain ⟨-, rfl⟩ := Prod.mk.inj (Option.some.inj h)
  simp [Machine.init] at hlog

/-- C15 (amended): `generate_random_bytes n use_rdseed` writes nothing to
`std::cerr` when it returns a full `n`-byte buffer; when it returns a shorter
buffer it writes exactly one line: the no-hardware message (line 103) if no
instruction is usable, the generation-failed message (line 108) otherwise. The
method contains no write to `std::cout`, so `std::cerr` is the only console stream
it can touch. -/
theorem generate_random_bytes_cerr (g : Generator) (hw : Hardware) (n : Nat)
    (use_rdseed : Bool) (m : Machine) :
    ∃ buf m', generate_random_bytes g hw n use_rdseed m = some (buf, m') ∧
      ((buf.length = n ∧ m'.cerr = m.cerr) ∨
        (buf.length < n ∧ usable g use_rdseed = false ∧
          m'.cerr = m.cerr ++ [Diagnostic.no_hardware_support]) ∨
        (buf.length < n ∧ usable g use_rdseed = true ∧
          m'.cerr = m.cerr ++ [Diagnostic.generation_failed])) := by
  rcases run_cases g hw n use_rdseed m with ⟨hu, h⟩ | ⟨hu, _, h⟩ | ⟨hu, J, hJ, _, _, h⟩
  · refine ⟨_, _, h, ?_⟩
    by_cases hn : 0 < n
    · right; left
      rw [if_pos hn]
      exact ⟨hn, hu, rfl⟩
    · left
      rw [if_neg hn]
      exact ⟨by simp; omega, rfl⟩
  · refine ⟨_, _, h, Or.inl ⟨?_, ?_⟩⟩
    · rw [List.length_take, drawn_bytes_length]
      unfold words_needed; omega
    · obtain ⟨t, _, _, hc⟩ := after_draws_trace g hw use_rdseed hu (words_needed n) m
      exact hc
  · refine ⟨_, _, h, Or.inr (Or.inr ⟨?_, hu, ?_⟩)⟩
    · rw [drawn_bytes_length]; exact hJ
    · obtain ⟨t, _, _, hc⟩ := after_draws_trace g hw use_rdseed hu (J + 1) m
      rw [report_cerr, hc]

/-- C16: for a menu choice between 1 and 4, one pass of the menu loop of `main`
calls `generate_random_bytes` or `generate_hex_string` (with the length read)
exactly when `1 ≤ length ≤ 10000`; every other length is rejected without calling
either. -/
theorem main_length_check (choice : Int) (length : Nat) (h1 : 1 ≤ choice)
    (h4 : choice ≤ 4) :
    ((∃ l u, main_pass choice length = Pass.random_bytes l u ∨
        main_pass choice length = Pass.hex_string l u) ↔
      (1 ≤ length ∧ length ≤ 10000)) ∧
    ((1 ≤ length ∧ length ≤ 10000) →
      ∃ u, main_pass choice length = Pass.random_bytes length u ∨
        main_pass choice length = Pass.hex_string length u) ∧
    (¬ (1 ≤ length ∧ length ≤ 10000) → main_pass choice length = Pass.length_rejected) := by
  have hc : choice = 1 ∨ choice = 2 ∨ choice = 3 ∨ choice = 4 := by omega
  have hrej : ¬ (1 ≤ length ∧ length ≤ 10000) → main_pass choice length = Pass.length_rejected := by
    intro hl
    rcases hc with rfl | rfl | rfl | rfl <;> simp [main_pass] <;> omega
  have hacc : (1 ≤ length ∧ length ≤ 10000) →
      ∃ u, main_pass choice length = Pass.random_bytes length u ∨
        main_pass choice length = Pass.hex_string length u := by
    intro hl
    rcases hc with rfl | rfl | rfl | rfl
    · exact ⟨false, Or.inl (by simp [main_pass]; omega)⟩
    · exact ⟨true, Or.inl (by simp [main_pass]; omega)⟩
    · exact ⟨false, Or.inr (by simp [main_pass]; omega)⟩
    · exact ⟨true, Or.inr (by simp [main_pass]; omega)⟩
  refine ⟨⟨?_, fun hl => ?_⟩, hacc, hrej⟩
  · rintro ⟨l, u, h⟩
    by_contra hl
    rw [hrej hl] at h
    rcases h with h | h <;> cases h
  · obtain ⟨u, h⟩ := hacc hl
    exact ⟨length, u, h⟩

/-- Instance of C16: choice 3 with the largest accepted length. -/
theorem main_length_check_witness :
    ((1 : Int) ≤ 3 ∧ (3 : Int) ≤ 4) ∧
    (((∃ l u, main_pass 3 10000 = Pass.random_bytes l u ∨
        main_pass 3 10000 = Pass.hex_string l u) ↔
      (1 ≤ 10000 ∧ 10000 ≤ 10000)) ∧
    ((1 ≤ 10000 ∧ 10000 ≤ 10000) →
      ∃ u, main_pass 3 10000 = Pass.random_bytes 10000 u ∨
        main_pass 3 10000 = Pass.hex_string 10000 u) ∧
    (¬ (1 ≤ 10000 ∧ 10000 ≤ 10000) → main_pass 3 10000 = Pass.length_rejected)) :=
  ⟨⟨by decide, by decide⟩, main_length_check 3 10000 (by decide) (by decide)⟩

end IntelRandomGenerator

namespace IntelRandomGenerator

/-- The loop needs no more than `ceil (n / 8) + 1` loop tests: with any larger
bound it returns what `generate_random_bytes` returns. -/
theorem run_fuel (g : Generator) (hw : Hardware) (n : Nat) (use_rdseed : Bool) (m : Machine)
    (fuel : Nat) (hf : words_needed n < fuel) :
    generate_random_bytes_loop g hw n use_rdseed fuel [] m =
      generate_random_bytes g hw n use_rdseed m := by
  obtain ⟨fuel, rfl⟩ : ∃ f, fuel = f + 1 := ⟨fuel - 1, by omega⟩
  rcases run_cases g hw n use_rdseed m with ⟨hu, h⟩ | ⟨hu, hok, h⟩ | ⟨hu, J, hJ, hok, hfail, h⟩
  · rw [h]
    by_cases hn : 0 < n
    · rw [loop_unusable g hw n use_rdseed fuel [] m (by simpa using hn) hu, if_pos hn]
    · rw [loop_done g hw n use_rdseed fuel [] m (by simpa using hn), if_neg hn]
  · rw [h, loop_all_succeed g hw n use_rdseed hu (words_needed n) (fuel + 1) [] m (by simp)
      hf hok]
    simp
  · rw [h, loop_first_failure g hw n use_rdseed hu J (fuel + 1) [] m (by simpa using hJ)
      (by have := (words_needed_gt_iff n J).mpr hJ; omega) hok hfail]
    simp

/-- One iteration of the loop either returns the buffer accumulated so far or goes
on with a buffer longer by `min 8 (n - result.length) ≥ 1` bytes. -/
theorem loop_progress (g : Generator) (hw : Hardware) (n : Nat) (use_rdseed : Bool)
    (fuel : Nat) (result : List Nat) (m1 : Machine) (h : result.length < n) :
    (∃ m2, generate_random_bytes_loop g hw n use_rdseed (fuel + 1) result m1 =
        some (result, m2)) ∨
    (∃ result' m2,
      generate_random_bytes_loop g hw n use_rdseed (fuel + 1) result m1 =
        generate_random_bytes_loop g hw n use_rdseed fuel result' m2 ∧
      result'.length = result.length + min 8 (n - result.length) ∧
      1 ≤ min 8 (n - result.length)) := by
  cases hu : usable g use_rdseed with
  | false => exact Or.inl ⟨_, loop_unusable g hw n use_rdseed fuel result m1 h hu⟩
  | true =>
    cases hd : (draw64 g hw use_rdseed m1).1 with
    | none =>
      left
      exact ⟨_, loop_draw_fails g hw n use_rdseed fuel result m1 _ h hu
        (show draw64 g hw use_rdseed m1 = (none, (draw64 g hw use_rdseed m1).2) by rw [← hd])⟩
    | some w =>
      right
      refine ⟨_, _, loop_draw_succeeds g hw n use_rdseed fuel result m1 _ w h hu
        (show draw64 g hw use_rdseed m1 = (some w, (draw64 g hw use_rdseed m1).2) by rw [← hd]),
        ?_, by omega⟩
      rw [List.length_append, List.length_take, le_bytes_length, Nat.min_comm]

/-- C17 as stated fails: with neither instruction supported the loop of
`generate_random_bytes 8 false` ends although the accumulated length is not 8 and
no draw failed: the failed-draw branch (line 107) is not taken and no hardware
step was attempted. -/
theorem loop_ends_without_draw :
    ¬ ∃ buf m', generate_random_bytes ⟨false, false⟩ hw_dead 8 false Machine.init =
        some (buf, m') ∧
      (buf.length = 8 ∨ Diagnostic.generation_failed ∈ m'.cerr ∨
        m'.calls ≠ Machine.init.calls) := by
  rintro ⟨buf, m', h, hend⟩
  have hrun : generate_random_bytes ⟨false, false⟩ hw_dead 8 false Machine.init =
      some ([], ⟨[], [Diagnostic.no_hardware_support]⟩) := by decide
  rw [hrun] at h
  obtain ⟨rfl, rfl⟩ := Prod.mk.inj (Option.some.inj h)
  simp [Machine.init] at hend

/-- C17 (amended): `generate_random_bytes n use_rdseed` terminates. Each iteration
of its outer loop either returns or appends `min 8 (n - current length) ≥ 1`
bytes, and `ceil (n / 8)` iterations (one more loop test) always suffice. The loop
ends exactly when the accumulated length equals `n`, or no instruction is usable,
or a draw fails. -/
theorem generate_random_bytes_terminates (g : Generator) (hw : Hardware) (n : Nat)
    (use_rdseed : Bool) (m : Machine) :
    (∃ buf m', generate_random_bytes g hw n use_rdseed m = some (buf, m') ∧
      (∀ fuel, words_needed n < fuel →
        generate_random_bytes_loop g hw n use_rdseed fuel [] m = some (buf, m')) ∧
      (buf.length = n ∨
        (buf.length < n ∧ usable g use_rdseed = false) ∨
        (buf.length < n ∧ usable g use_rdseed = true ∧ ∃ J, buf.length = 8 * J ∧
          (∀ j, j < J → nth_draw g hw use_rdseed j m ≠ none) ∧
          nth_draw g hw use_rdseed J m = none))) ∧
    (∀ (fuel : Nat) (result : List Nat) (m1 : Machine), result.length < n →
      (∃ m2, generate_random_bytes_loop g hw n use_rdseed (fuel + 1) result m1 =
          some (result, m2)) ∨
      (∃ result' m2,
        generate_random_bytes_loop g hw n use_rdseed (fuel + 1) result m1 =
          generate_random_bytes_loop g hw n use_rdseed fuel result' m2 ∧
        result'.length = result.length + min 8 (n - result.length) ∧
        1 ≤ min 8 (n - result.length))) := by
  refine ⟨?_, fun fuel result m1 h => loop_progress g hw n use_rdseed fuel result m1 h⟩
  have hfuel : ∀ fuel, words_needed n < fuel →
      generate_random_bytes_loop g hw n use_rdseed fuel [] m =
        generate_random_bytes g hw n use_rdseed m :=
    fun fuel hf => run_fuel g hw n use_rdseed m fuel hf
  rcases run_cases g hw n use_rdseed m with ⟨hu, h⟩ | ⟨hu, _, h⟩ | ⟨hu, J, hJ, hok, hfail, h⟩
  · refine ⟨_, _, h, fun fuel hf => by rw [hfuel fuel hf, h], ?_⟩
    by_cases hn : 0 < n
    · exact Or.inr (Or.inl ⟨hn, hu⟩)
    · exact Or.inl (by simp; omega)
  · refine ⟨_, _, h, fun fuel hf => by rw [hfuel fuel hf, h], Or.inl ?_⟩
    rw [List.length_take, drawn_bytes_length]
    unfold words_needed; omega
  · refine ⟨_, _, h, fun fuel hf => by rw [hfuel fuel hf, h], Or.inr (Or.inr ⟨?_, hu, J, ?_, hok, hfail⟩)⟩
    · rw [drawn_bytes_length]; exact hJ
    · rw [drawn_bytes_length]

/-- C18: one call `generate_random_bytes n use_rdseed` executes at most
`10 * ceil (n / 8)` hardware steps, and at least `ceil (n / 8)` when it returns a
full `n`-byte buffer. -/
theorem generate_random_bytes_step_count (g : Generator) (hw : Hardware) (n : Nat)
    (use_rdseed : Bool) (m : Machine) :
    ∃ buf m' steps, generate_random_bytes g hw n use_rdseed m = some (buf, m') ∧
      m'.calls = m.calls ++ steps ∧
      steps.length ≤ 10 * words_needed n ∧
      (buf.length = n → words_needed n ≤ steps.length) := by
  rcases run_cases g hw n use_rdseed m with ⟨hu, h⟩ | ⟨hu, _, h⟩ | ⟨hu, J, hJ, _, _, h⟩
  · refine ⟨_, _, [], h, ?_, by simp, ?_⟩
    · split <;> simp [report_calls]
    · intro hn
      have : n = 0 := by simpa using hn.symm
      simp [this, words_needed]
  · obtain ⟨t, h1, h2, hc, _⟩ := after_draws_steps g hw use_rdseed hu (words_needed n) m
    refine ⟨_, _, _, h, hc, ?_, fun _ => ?_⟩ <;> simpa using by assumption
  · obtain ⟨t, h1, h2, hc, _⟩ := after_draws_steps g hw use_rdseed hu (J + 1) m
    refine ⟨_, _, _, h, by rw [report_calls, hc], ?_, ?_⟩
    · have := (words_needed_gt_iff n J).mpr hJ
      simp only [List.length_replicate]; omega
    · intro hfull
      rw [drawn_bytes_length] at hfull
      omega

theorem take_extends {α : Type} (L : List α) (n n' : Nat) (h : n ≤ n') :
    ∃ rest, L.take n' = L.take n ++ rest := by
  refine ⟨(L.take n').drop n, ?_⟩
  have := List.take_append_drop n (L.take n')
  rw [List.take_take, Nat.min_eq_left h] at this
  exact this.symm

/-- The first `n` bytes of `d` draws do not change when more draws follow, as long
as `n ≤ 8 * d`. -/
theorem take_drawn_bytes_more (g : Generator) (hw : Hardware) (use_rdseed : Bool)
    (m : Machine) (n d d' : Nat) (hd : d ≤ d') (hn : n ≤ 8 * d) :
    (drawn_bytes g hw use_rdseed d' m).take n = (drawn_bytes g hw use_rdseed d m).take n := by
  obtain ⟨c, rfl⟩ : ∃ c, d' = d + c := ⟨d' - d, by omega⟩
  rw [drawn_bytes_add, List.take_append_eq_append_take, drawn_bytes_length,
    show n - 8 * d = 0 by omega, List.take_zero, List.append_nil]

/-- C19: for `n ≤ n'` and the same flags, `use_rdseed`, hardware stream and
starting machine, the buffer returned for `n` is a prefix of the one returned for
`n'`. -/
theorem generate_random_bytes_extends (g : Generator) (hw : Hardware) (n n' : Nat)
    (use_rdseed : Bool) (m : Machine) (hle : n ≤ n') :
    ∃ buf m1 buf' m2 rest,
      generate_random_bytes g hw n use_rdseed m = some (buf, m1) ∧
      generate_random_bytes g hw n' use_rdseed m = some (buf', m2) ∧
      buf' = buf ++ rest := by
  have hwn : words_needed n ≤ words_needed n' := by unfold words_needed; omega
  rcases run_cases g hw n use_rdseed m with ⟨hu, h⟩ | ⟨hu, hok, h⟩ | ⟨hu, J, hJ, hok, hfail, h⟩
  · obtain ⟨buf', m2, h', _⟩ := run_bytes g hw n' use_rdseed m
    exact ⟨_, _, buf', m2, buf', h, h', rfl⟩
  · rcases run_cases g hw n' use_rdseed m with
      ⟨hu', _⟩ | ⟨_, hok', h'⟩ | ⟨_, J', hJ', hok', hfail', h'⟩
    · rw [hu] at hu'; cases hu'
    · obtain ⟨rest, hrest⟩ := take_extends (drawn_bytes g hw use_rdseed (words_needed n') m)
        n n' hle
      refine ⟨_, _, _, _, rest, h, h', ?_⟩
      rw [hrest, take_drawn_bytes_more g hw use_rdseed m n _ _ hwn
        (by unfold words_needed; omega)]
    · have hdJ : words_needed n ≤ J' := by
        by_contra hlt
        exact hok J' (by omega) hfail'
      refine ⟨_, _, _, _, (drawn_bytes g hw use_rdseed J' m).drop n, h, h', ?_⟩
      rw [← take_drawn_bytes_more g hw use_rdseed m n _ _ hdJ
        (by unfold words_needed; omega), List.take_append_drop]
  · rcases run_cases g hw n' use_rdseed m with
      ⟨hu', _⟩ | ⟨_, hok', h'⟩ | ⟨_, J', hJ', hok', hfail', h'⟩
    · rw [hu] at hu'; cases hu'
    · exact absurd hfail (hok' J (by
        have := (words_needed_gt_iff n J).mpr hJ
        omega))
    · have hJJ : J = J' :=
        first_failure_unique (fun j => nth_draw g hw use_rdseed j m ≠ none) J J' hok
          (not_not.mpr hfail) hok' (not_not.mpr hfail')
      subst hJJ
      exact ⟨_, _, _, _, [], h, h', by rw [List.append_nil]⟩

/-- Instance of C19: 3 bytes and 20 bytes from the same stream. -/
theorem generate_random_bytes_extends_witness :
    3 ≤ 20 ∧
    ∃ buf m1 buf' m2 rest,
      generate_random_bytes ⟨true, false⟩ hw_third 3 false Machine.init = some (buf, m1) ∧
      generate_random_bytes ⟨true, false⟩ hw_third 20 false Machine.init = some (buf', m2) ∧
      buf' = buf ++ rest :=
  ⟨by decide,
    generate_random_bytes_extends ⟨true, false⟩ hw_third 3 20 false Machine.init (by decide)⟩

end IntelRandomGenerator
